import Mathlib

/-!
Verification of the cutit editing core (crates/engine) against its
natural-language specification.

The Rust sources are shallowly embedded: machine integers (i64 / i128) are
modelled as unbounded `Int` with explicit saturation/clamping exactly where
the source saturates or clamps; fallible operations return `Except`;
in-place mutation becomes explicit state passing.  Every definition mirrors
one item of the source (file and symbol named in its doc comment).
-/

namespace Cutit

/-! ## Machine-integer model (i64 bounds, Rust clamp / saturating ops) -/

/-- Smallest `i64` value, `-2^63`. -/
def i64Min : Int := -(2 ^ 63)

/-- Largest `i64` value, `2^63 - 1`. -/
def i64Max : Int := 2 ^ 63 - 1

/-- Rust `x.clamp(lo, hi)` for `lo ≤ hi` (the sources only call it with
ordered bounds; Rust panics otherwise). -/
def rustClamp (x lo hi : Int) : Int := min (max x lo) hi

/-- Rust `i64::saturating_add`. -/
def satAdd (a b : Int) : Int := rustClamp (a + b) i64Min i64Max

/-- Rust `i64::saturating_sub`. -/
def satSub (a b : Int) : Int := rustClamp (a - b) i64Min i64Max

/-! ## Time base and rescale (crates/engine/src/time.rs) -/

/-- FFmpeg-like rational time base (`time.rs`, struct `Rational`); the Rust
fields are `i32`, modelled as `Int`.  A rational is valid when both fields
are positive (`Rational::new` rejects the rest). -/
structure Rational where
  num : Int
  den : Int
deriving DecidableEq, Repr

/-- Validity enforced by `Rational::new` and at deserialization. -/
def Rational.Valid (r : Rational) : Prop := 0 < r.num ∧ 0 < r.den

instance (r : Rational) : Decidable r.Valid :=
  inferInstanceAs (Decidable (0 < r.num ∧ 0 < r.den))

/-- Timeline time base `1/1_000_000` (`Rational::MICROS`, `TIMELINE_TIME_BASE`). -/
def TIMELINE_TIME_BASE : Rational := ⟨1, 1000000⟩

/-- `time.rs`, `div_round_nearest`: division rounding to nearest with ties
away from zero.  The source works on `i128`; with operands produced by
`rescale` from valid `i32` rationals the magnitudes stay below `2^127`, so
plain integer arithmetic is exact (the `saturating_mul(2)` on the remainder
cannot saturate since the remainder is below the `i32·i32` denominator). -/
def divRoundNearest (num den : Int) : Int :=
  let absNum := |num|
  let out := absNum / den
  let remainder := absNum % den
  let out := if remainder * 2 ≥ den then out + 1 else out
  if num < 0 then -out else out

/-- `time.rs`, `rescale`: converts `ts` between time bases with nearest
rounding (ties away from zero), the widened quotient clamped into the
`i64` range. -/
def rescale (ts : Int) (from_ to_ : Rational) : Int :=
  let numerator := ts * from_.num * to_.den
  let denominator := from_.den * to_.num
  rustClamp (divRoundNearest numerator denominator) i64Min i64Max

/-- The specification's reference formula for `rescale`, written
independently of the source: the quotient rounded to the nearest integer
with ties away from zero expressed in closed form
(`sign(n) * ((2|n| + d) / (2d))`), saturated into the `i64` range. -/
def rescaleSpec (ts : Int) (from_ to_ : Rational) : Int :=
  let n := ts * from_.num * to_.den
  let d := from_.den * to_.num
  let away := (if n < 0 then (-1 : Int) else 1) * ((2 * |n| + d) / (2 * d))
  rustClamp away i64Min i64Max

/-! ## Errors (crates/engine/src/error.rs) -/

/-- `error.rs`, enum `EngineError` (the persistence / backend payloads carry
no data the claims depend on, so they are collapsed to payload-free
constructors; `SegmentIdNotFound` is returned by `project.rs` and modelled
from the spec's error taxonomy since the declaration is not under `src/`). -/
inductive EngineError where
  | projectNotLoaded
  | segmentNotFound (atTl : Int)
  | splitPointAtBoundary (atTl : Int)
  | segmentIdNotFound (segmentId : Nat)
  | missingAsset (assetId : Nat)
  | missingVideoStream (assetId : Nat)
  | missingAudioStream (assetId : Nat)
  | missingVideoRange (segmentId : Nat)
  | missingAudioRange (segmentId : Nat)
  | invalidVideoRange (segmentId : Nat) (srcInVideo srcOutVideo : Int)
  | invalidAudioRange (segmentId : Nat) (srcInAudio srcOutAudio : Int)
  | invalidRational (num den : Int)
  | media
deriving DecidableEq, Repr

/-- Decidable equality of `Except` results (used to evaluate the embedded
operations on concrete inputs). -/
instance {ε α : Type} [DecidableEq ε] [DecidableEq α] :
    DecidableEq (Except ε α) := fun x y =>
  match x, y with
  | .ok a, .ok b =>
    if h : a = b then .isTrue (by rw [h])
    else .isFalse (by intro hc; cases hc; exact h rfl)
  | .error a, .error b =>
    if h : a = b then .isTrue (by rw [h])
    else .isFalse (by intro hc; cases hc; exact h rfl)
  | .ok _, .error _ => .isFalse (by intro hc; cases hc)
  | .error _, .ok _ => .isFalse (by intro hc; cases hc)

/-! ## Timeline and segments (crates/engine/src/timeline.rs) -/

/-- `timeline.rs`, struct `Segment` (ids are `u64`, modelled as `Nat`). -/
structure Segment where
  id : Nat
  assetId : Nat
  srcInVideo : Option Int
  srcOutVideo : Option Int
  srcInAudio : Option Int
  srcOutAudio : Option Int
  timelineStart : Int
  timelineDuration : Int
deriving DecidableEq, Repr

/-- `timeline.rs`, struct `Timeline`. -/
structure Timeline where
  segments : List Segment
deriving DecidableEq, Repr

/-- `timeline.rs`, `Timeline::duration_tl`. -/
def Timeline.durationTl (t : Timeline) : Int :=
  match t.segments.getLast? with
  | some segment => segment.timelineStart + segment.timelineDuration
  | none => 0

/-- Predicate of `Timeline::find_segment_index`: `t_tl` lies in the
half-open timeline range of the segment. -/
def segmentContains (tTl : Int) (segment : Segment) : Bool :=
  let e := segment.timelineStart + segment.timelineDuration
  segment.timelineStart ≤ tTl ∧ tTl < e

/-- `timeline.rs`, `Timeline::find_segment_index`. -/
def Timeline.findSegmentIndex (t : Timeline) (tTl : Int) : Option Nat :=
  t.segments.findIdx? (segmentContains tTl)

/-- `timeline.rs`, `Timeline::is_boundary_split_point`. -/
def Timeline.isBoundarySplitPoint (t : Timeline) (atTl : Int) : Bool :=
  t.segments.any fun segment =>
    let e := segment.timelineStart + segment.timelineDuration
    atTl = segment.timelineStart ∨ atTl = e

/-- `timeline.rs`, free function `split_stream_range`: splits one stream's
source range at the rescaled left duration, both sides sharing the clamped
split value; unset fields pass through unchanged. -/
def splitStreamRange (srcIn srcOut : Option Int) (leftDurationTl : Int)
    (timeBase : Option Rational) : Option Int × Option Int :=
  match srcIn, srcOut, timeBase with
  | some si, some so, some tb =>
    let delta := rescale leftDurationTl TIMELINE_TIME_BASE tb
    let split := rustClamp (si + delta) si so
    (some split, some split)
  | si, so, _ => (so, si)

/-- `timeline.rs`, `Timeline::split_segment`.  The `get?` fallback on the
index returned by `find_segment_index` is unreachable (the index always
addresses a segment); it mirrors the source's direct indexing without a
panic branch. -/
def Timeline.splitSegment (t : Timeline) (atTl : Int) (nextSegmentId : Nat)
    (videoTimeBase audioTimeBase : Option Rational) :
    Except EngineError Timeline :=
  if t.isBoundarySplitPoint atTl then
    .error (.splitPointAtBoundary atTl)
  else
    match t.findSegmentIndex atTl with
    | none => .error (.segmentNotFound atTl)
    | some index =>
      match t.segments[index]? with
      | none => .error (.segmentNotFound atTl)
      | some current =>
        let localTl := atTl - current.timelineStart
        let leftDuration := localTl
        let rightDuration := current.timelineDuration - localTl
        let vsplit := splitStreamRange current.srcInVideo current.srcOutVideo
          leftDuration videoTimeBase
        let asplit := splitStreamRange current.srcInAudio current.srcOutAudio
          leftDuration audioTimeBase
        let left : Segment :=
          { current with
            timelineDuration := leftDuration
            srcOutVideo := vsplit.1
            srcOutAudio := asplit.1 }
        let right : Segment :=
          { current with
            id := nextSegmentId
            srcInVideo := vsplit.2
            srcInAudio := asplit.2
            timelineStart := atTl
            timelineDuration := rightDuration }
        .ok ⟨(t.segments.set index left).insertIdx (index + 1) right⟩

/-- `timeline.rs`, `Timeline::find_cut_segment_index`: the segment starting
exactly at `at_tl` wins over the segment containing `at_tl`. -/
def Timeline.findCutSegmentIndex (t : Timeline) (atTl : Int) : Option Nat :=
  (t.segments.findIdx? fun segment => segment.timelineStart = atTl).orElse
    fun _ => t.findSegmentIndex atTl

/-- `timeline.rs`, `Timeline::cut_segment`: removes the resolved segment and
shifts every later segment left by the removed duration.  Returns the
removed segment together with the updated timeline. -/
def Timeline.cutSegment (t : Timeline) (atTl : Int) :
    Except EngineError (Segment × Timeline) :=
  match t.findCutSegmentIndex atTl with
  | none => .error (.segmentNotFound atTl)
  | some index =>
    match t.segments[index]? with
    | none => .error (.segmentNotFound atTl)
    | some removed =>
      let removedDuration := removed.timelineDuration
      let kept := t.segments.eraseIdx index
      let shifted := kept.mapIdx fun i segment =>
        if index ≤ i then
          { segment with timelineStart := segment.timelineStart - removedDuration }
        else segment
      .ok (removed, ⟨shifted⟩)

/-! ## Project (crates/engine/src/project.rs) -/

/-- `project.rs`, struct `VideoStreamInfo`. -/
structure VideoStreamInfo where
  timeBase : Rational
  width : Nat
  height : Nat
deriving DecidableEq, Repr

/-- `project.rs`, struct `AudioStreamInfo`. -/
structure AudioStreamInfo where
  timeBase : Rational
  sampleRate : Nat
  channels : Nat
deriving DecidableEq, Repr

/-- `project.rs`, struct `MediaAsset` (paths modelled as strings). -/
structure MediaAsset where
  id : Nat
  path : String
  videoStreamIndex : Option Nat
  audioStreamIndex : Option Nat
  video : Option VideoStreamInfo
  audio : Option AudioStreamInfo
  durationTl : Int
deriving DecidableEq, Repr

/-- `project.rs`, struct `Project` (the persisted `settings` carry no data
the claims depend on and are omitted). -/
structure Project where
  assets : List MediaAsset
  timeline : Timeline
deriving DecidableEq, Repr

/-- `project.rs`, struct `PreviewRequest`.  The derived `source_seconds`
field is `f64` (`source_tl / 1e6`), a bijective image of `source_tl`; the
floating-point field itself is not modelled. -/
structure PreviewRequest where
  path : String
  sourceTl : Int
deriving DecidableEq, Repr

/-- `project.rs`, `Project::duration_tl`. -/
def Project.durationTl (p : Project) : Int := p.timeline.durationTl

/-- `project.rs`, `Project::asset_by_id`. -/
def Project.assetById (p : Project) (assetId : Nat) :
    Except EngineError MediaAsset :=
  match p.assets.find? fun asset => asset.id = assetId with
  | some asset => .ok asset
  | none => .error (.missingAsset assetId)

/-- Modelled from the spec: `Timeline::find_segment_index_by_id`, called by
`project.rs` but absent from `timeline.rs` under `src/`.  Per the spec,
`move_segment` / trim operations address one segment by id and fail with
`SegmentIdNotFound` when the id is absent; ids are unique, so the first
match is the segment. -/
def Timeline.findSegmentIndexById (t : Timeline) (segmentId : Nat) : Option Nat :=
  t.segments.findIdx? fun segment => segment.id = segmentId

/-- `project.rs`, free function `shift_stream_point`: shifts a source point
by the rescaled timeline delta (saturating add), pinning the result at 0;
unset points pass through. -/
def shiftStreamPoint (point : Option Int) (deltaTl : Int)
    (timeBase : Option Rational) : Option Int :=
  match point, timeBase with
  | some pt, some tb =>
    let deltaStream := rescale deltaTl TIMELINE_TIME_BASE tb
    let shifted := satAdd pt deltaStream
    some (max shifted 0)
  | pt, _ => pt

/-- `project.rs`, `Project::move_segment`: clamps the new start between the
previous segment's (saturated) end and the next segment's start minus the
duration (saturated `i64::MAX` arithmetic for the last segment). -/
def Project.moveSegment (p : Project) (segmentId : Nat) (newStartTl : Int) :
    Except EngineError Project :=
  match p.timeline.findSegmentIndexById segmentId with
  | none => .error (.segmentIdNotFound segmentId)
  | some index =>
    match p.timeline.segments[index]? with
    | none => .error (.segmentIdNotFound segmentId)
    | some segment =>
      let prevEnd : Int :=
        if index = 0 then 0
        else
          match p.timeline.segments[index - 1]? with
          | some prev => satAdd prev.timelineStart prev.timelineDuration
          | none => 0
      let duration := segment.timelineDuration
      let maxStart :=
        match p.timeline.segments[index + 1]? with
        | some next => satSub next.timelineStart duration
        | none => satSub i64Max (max duration 0)
      let clamped := rustClamp (max newStartTl 0) prevEnd (max maxStart prevEnd)
      .ok { p with timeline :=
        ⟨p.timeline.segments.set index { segment with timelineStart := clamped }⟩ }

/-- `project.rs`, `Project::trim_segment_start`: clamps the requested start
into `[prev_end, old_end - 1]`, shifts both `src_in` points by the rescaled
delta, keeps the end boundary. -/
def Project.trimSegmentStart (p : Project) (segmentId : Nat) (newStartTl : Int) :
    Except EngineError Project :=
  match p.timeline.findSegmentIndexById segmentId with
  | none => .error (.segmentIdNotFound segmentId)
  | some index =>
    match p.timeline.segments[index]? with
    | none => .error (.segmentIdNotFound segmentId)
    | some segment =>
      match p.assetById segment.assetId with
      | .error e => .error e
      | .ok asset =>
        let videoTb := asset.video.map fun video => video.timeBase
        let audioTb := asset.audio.map fun audio => audio.timeBase
        let prevEnd : Int :=
          if index = 0 then 0
          else
            match p.timeline.segments[index - 1]? with
            | some prev => prev.timelineStart + prev.timelineDuration
            | none => 0
        let oldStart := segment.timelineStart
        let oldEnd := oldStart + segment.timelineDuration
        let clampedStart := rustClamp newStartTl prevEnd (oldEnd - 1)
        let deltaTl := clampedStart - oldStart
        let updated :=
          { segment with
            timelineStart := clampedStart
            timelineDuration := oldEnd - clampedStart
            srcInVideo := shiftStreamPoint segment.srcInVideo deltaTl videoTb
            srcInAudio := shiftStreamPoint segment.srcInAudio deltaTl audioTb }
        .ok { p with timeline := ⟨p.timeline.segments.set index updated⟩ }

/-- `project.rs`, `Project::trim_segment_end`: clamps the requested end into
`[old_start + 1, next_start]` (`i64::MAX` when last), shifts both `src_out`
points by the rescaled delta, keeps the start boundary. -/
def Project.trimSegmentEnd (p : Project) (segmentId : Nat) (newEndTl : Int) :
    Except EngineError Project :=
  match p.timeline.findSegmentIndexById segmentId with
  | none => .error (.segmentIdNotFound segmentId)
  | some index =>
    match p.timeline.segments[index]? with
    | none => .error (.segmentIdNotFound segmentId)
    | some segment =>
      match p.assetById segment.assetId with
      | .error e => .error e
      | .ok asset =>
        let videoTb := asset.video.map fun video => video.timeBase
        let audioTb := asset.audio.map fun audio => audio.timeBase
        let oldStart := segment.timelineStart
        let oldEnd := oldStart + segment.timelineDuration
        let nextStart :=
          match p.timeline.segments[index + 1]? with
          | some next => next.timelineStart
          | none => i64Max
        let clampedEnd := rustClamp newEndTl (oldStart + 1) nextStart
        let deltaTl := clampedEnd - oldEnd
        let updated :=
          { segment with
            timelineDuration := clampedEnd - oldStart
            srcOutVideo := shiftStreamPoint segment.srcOutVideo deltaTl videoTb
            srcOutAudio := shiftStreamPoint segment.srcOutAudio deltaTl audioTb }
        .ok { p with timeline := ⟨p.timeline.segments.set index updated⟩ }

/-- `project.rs`, `normalize_playhead`: clamps the playhead into
`[0, duration - 1]`, or 0 for a non-positive duration. -/
def normalizePlayhead (tTl durationTl : Int) : Int :=
  if durationTl ≤ 0 then 0
  else rustClamp tTl 0 (durationTl - 1)

/-- `project.rs`, `Project::preview_request_at`: maps a timeline tick into
the containing segment's video clock and back (snapping onto the stream's
renderable grid), clamping the result at zero. -/
def Project.previewRequestAt (p : Project) (tTl : Int) :
    Except EngineError PreviewRequest :=
  match p.timeline.findSegmentIndex tTl with
  | none => .error (.segmentNotFound tTl)
  | some index =>
    match p.timeline.segments[index]? with
    | none => .error (.segmentNotFound tTl)
    | some segment =>
      match p.assetById segment.assetId with
      | .error e => .error e
      | .ok asset =>
        match asset.video with
        | none => .error (.missingVideoStream asset.id)
        | some video =>
          match segment.srcInVideo with
          | none => .error (.missingVideoStream asset.id)
          | some srcInVideo =>
            let localTl := tTl - segment.timelineStart
            let srcTargetVideoTs :=
              srcInVideo + rescale localTl TIMELINE_TIME_BASE video.timeBase
            let srcTargetTl := rescale srcTargetVideoTs video.timeBase TIMELINE_TIME_BASE
            let sourceTl := max srcTargetTl 0
            .ok { path := asset.path, sourceTl := sourceTl }

/-! ## Export plan builder (crates/engine/src/export.rs) -/

/-- `export.rs`, struct `ExportAudioSettings`. -/
structure ExportAudioSettings where
  sampleRate : Nat
  channels : Nat
deriving DecidableEq, Repr

/-- `export.rs`, struct `ExportVideoSegment`. -/
structure ExportVideoSegment where
  inputIndex : Nat
  srcInVideo : Int
  srcOutVideo : Int
  srcVideoTimeBase : Rational
  srcInAudio : Option Int
  srcOutAudio : Option Int
  srcAudioTimeBase : Option Rational
deriving DecidableEq, Repr

/-- `export.rs`, struct `ExportVideoPlan`. -/
structure ExportVideoPlan where
  inputs : List String
  segments : List ExportVideoSegment
  audio : Option ExportAudioSettings
  outputPath : String
deriving DecidableEq, Repr

/-- One element of the builder's working state: the pushed plan segment
paired with the timeline segment and asset it was selected from.  The Rust
loop pushes to the `segments` and `selected` vectors in lockstep, which the
pairing makes explicit. -/
abbrev ExportPair := ExportVideoSegment × Segment × MediaAsset

/-- `export.rs`, `build_video_export_plan`, first loop: walks timeline
segments in order, validates video ranges, silently skips zero-length video
ranges, deduplicates input paths (stable index on first use). -/
def planVideoPass (p : Project) (inputs : List String) (acc : List ExportPair) :
    List Segment → Except EngineError (List String × List ExportPair)
  | [] => .ok (inputs, acc)
  | ts :: rest =>
    match p.assets.find? fun asset => asset.id = ts.assetId with
    | none => .error (.missingAsset ts.assetId)
    | some asset =>
      match asset.video with
      | none => .error (.missingVideoStream asset.id)
      | some video =>
        match ts.srcInVideo with
        | none => .error (.missingVideoRange ts.id)
        | some srcInVideo =>
          match ts.srcOutVideo with
          | none => .error (.missingVideoRange ts.id)
          | some srcOutVideo =>
            if srcOutVideo < srcInVideo then
              .error (.invalidVideoRange ts.id srcInVideo srcOutVideo)
            else if srcOutVideo = srcInVideo then
              planVideoPass p inputs acc rest
            else
              let found := inputs.findIdx? fun path => path = asset.path
              let inputIndex := found.getD inputs.length
              let inputs' := if found.isSome then inputs else inputs ++ [asset.path]
              let seg : ExportVideoSegment :=
                { inputIndex := inputIndex
                  srcInVideo := srcInVideo
                  srcOutVideo := srcOutVideo
                  srcVideoTimeBase := video.timeBase
                  srcInAudio := none
                  srcOutAudio := none
                  srcAudioTimeBase := none }
              planVideoPass p inputs' (acc ++ [(seg, ts, asset)]) rest

/-- `export.rs`, `build_video_export_plan`, audio loop: requires a valid
audio range on every selected segment, extends a zero-length audio range by
one (saturating) audio tick, and fills the plan segment's audio fields. -/
def planAudioPass : List ExportPair → Except EngineError (List ExportVideoSegment)
  | [] => .ok []
  | (seg, ts, asset) :: rest =>
    match asset.audio with
    | none => .error (.missingAudioStream asset.id)
    | some audioStream =>
      match ts.srcInAudio with
      | none => .error (.missingAudioRange ts.id)
      | some srcInAudio =>
        match ts.srcOutAudio with
        | none => .error (.missingAudioRange ts.id)
        | some srcOutAudio =>
          if srcOutAudio < srcInAudio then
            .error (.invalidAudioRange ts.id srcInAudio srcOutAudio)
          else
            let srcOutAudio :=
              if srcOutAudio = srcInAudio then satAdd srcOutAudio 1 else srcOutAudio
            let updated :=
              { seg with
                srcInAudio := some srcInAudio
                srcOutAudio := some srcOutAudio
                srcAudioTimeBase := some audioStream.timeBase }
            match planAudioPass rest with
            | .error e => .error e
            | .ok segs => .ok (updated :: segs)

/-- `export.rs`, `build_video_export_plan`: video pass, then audio settings
from the first selected asset with an audio stream, then the audio pass. -/
def buildVideoExportPlan (p : Project) (outputPath : String) :
    Except EngineError ExportVideoPlan :=
  match planVideoPass p [] [] p.timeline.segments with
  | .error e => .error e
  | .ok (inputs, pairs) =>
    let hasAudio := pairs.any fun pr => pr.2.2.audio.isSome
    if hasAudio then
      match pairs.findSome? fun pr => pr.2.2.audio with
      | none =>
        .error (.missingAudioStream ((pairs.head?.map fun pr => pr.2.2.id).getD 0))
      | some firstAudio =>
        match planAudioPass pairs with
        | .error e => .error e
        | .ok segs =>
          .ok { inputs := inputs, segments := segs,
                audio := some ⟨firstAudio.sampleRate, firstAudio.channels⟩,
                outputPath := outputPath }
    else
      .ok { inputs := inputs, segments := pairs.map fun pr => pr.1,
            audio := none, outputPath := outputPath }

/-! ## Preview frame cache (crates/engine/src/cache.rs) -/

/-- `preview.rs`, enum `PreviewPixelFormat`. -/
inductive PreviewPixelFormat where
  | rgba8
  | nv12
deriving DecidableEq, Repr

/-- `preview.rs`, struct `PreviewFrame` (the shared byte payload is
modelled as a list). -/
structure PreviewFrame where
  width : Nat
  height : Nat
  format : PreviewPixelFormat
  bytes : List Nat
deriving DecidableEq, Repr

/-- `cache.rs`, struct `PreviewCacheKey`. -/
structure PreviewCacheKey where
  path : String
  bucket : Int
deriving DecidableEq, Repr

/-- `cache.rs`, struct `PreviewFrameCache`: the hash map of entries is
modelled as an association list (key-unique in every reachable state), the
`VecDeque` recency order as a list, front = least recently used. -/
structure PreviewFrameCache where
  capacity : Nat
  bucketSizeTl : Int
  entries : List (PreviewCacheKey × PreviewFrame)
  lruOrder : List PreviewCacheKey
deriving DecidableEq, Repr

/-- `HashMap::get` on the modelled entry list. -/
def assocFind (entries : List (PreviewCacheKey × PreviewFrame))
    (key : PreviewCacheKey) : Option PreviewFrame :=
  (entries.find? fun e => e.1 = key).map fun e => e.2

/-- `HashMap::insert` on the modelled entry list: replaces the value of an
existing key in place, otherwise appends. -/
def assocInsert (entries : List (PreviewCacheKey × PreviewFrame))
    (key : PreviewCacheKey) (frame : PreviewFrame) :
    List (PreviewCacheKey × PreviewFrame) :=
  if entries.any fun e => e.1 = key then
    entries.map fun e => if e.1 = key then (key, frame) else e
  else
    entries ++ [(key, frame)]

/-- `HashMap::remove` on the modelled entry list. -/
def assocRemove (entries : List (PreviewCacheKey × PreviewFrame))
    (key : PreviewCacheKey) : List (PreviewCacheKey × PreviewFrame) :=
  entries.filter fun e => ¬ e.1 = key

/-- `cache.rs`, `PreviewFrameCache::new` (the source asserts both arguments
positive; theorems carry those bounds as hypotheses). -/
def PreviewFrameCache.new (capacity : Nat) (bucketSizeTl : Int) :
    PreviewFrameCache :=
  { capacity := capacity, bucketSizeTl := bucketSizeTl,
    entries := [], lruOrder := [] }

/-- `cache.rs`, `PreviewFrameCache::clear`. -/
def PreviewFrameCache.clear (c : PreviewFrameCache) : PreviewFrameCache :=
  { c with entries := [], lruOrder := [] }

/-- `cache.rs`, `PreviewFrameCache::make_key`:
`bucket = max(source_tl, 0).div_euclid(bucket_size)`. -/
def PreviewFrameCache.makeKey (c : PreviewFrameCache) (path : String)
    (sourceTl : Int) : PreviewCacheKey :=
  { path := path, bucket := Int.ediv (max sourceTl 0) c.bucketSizeTl }

/-- `cache.rs`, `PreviewFrameCache::contains` (`&self`: pure observation). -/
def PreviewFrameCache.containsKey (c : PreviewFrameCache) (path : String)
    (sourceTl : Int) : Bool :=
  (assocFind c.entries (c.makeKey path sourceTl)).isSome

/-- `cache.rs`, `PreviewFrameCache::touch`: removes the first occurrence of
the key from the recency order and pushes it to the back. -/
def PreviewFrameCache.touch (c : PreviewFrameCache) (key : PreviewCacheKey) :
    PreviewFrameCache :=
  { c with lruOrder := c.lruOrder.erase key ++ [key] }

/-- `cache.rs`, `PreviewFrameCache::get`: returns the cached frame for the
key bucket and marks it most recently used; a miss leaves the cache
untouched. -/
def PreviewFrameCache.get (c : PreviewFrameCache) (path : String)
    (sourceTl : Int) : Option PreviewFrame × PreviewFrameCache :=
  let key := c.makeKey path sourceTl
  match assocFind c.entries key with
  | none => (none, c)
  | some frame => (some frame, c.touch key)

/-- `cache.rs`, `PreviewFrameCache::evict_if_needed`, loop body: while over
capacity, pop the least recently used key and drop its entry. -/
def evictLoop (capacity : Nat) (entries : List (PreviewCacheKey × PreviewFrame)) :
    List PreviewCacheKey → List (PreviewCacheKey × PreviewFrame) × List PreviewCacheKey
  | [] => (entries, [])
  | oldest :: rest =>
    if capacity < entries.length then
      evictLoop capacity (assocRemove entries oldest) rest
    else
      (entries, oldest :: rest)

/-- `cache.rs`, `PreviewFrameCache::evict_if_needed`. -/
def PreviewFrameCache.evictIfNeeded (c : PreviewFrameCache) : PreviewFrameCache :=
  let (entries, lru) := evictLoop c.capacity c.entries c.lruOrder
  { c with entries := entries, lruOrder := lru }

/-- `cache.rs`, `PreviewFrameCache::insert`: inserts/updates the entry,
touches it, then evicts while over capacity. -/
def PreviewFrameCache.insert (c : PreviewFrameCache) (path : String)
    (sourceTl : Int) (frame : PreviewFrame) : PreviewFrameCache :=
  let key := c.makeKey path sourceTl
  let c := { c with entries := assocInsert c.entries key frame }
  let c := c.touch key
  c.evictIfNeeded

/-- One externally invokable cache operation (the cache's public surface). -/
inductive CacheOp where
  | get (path : String) (sourceTl : Int)
  | insert (path : String) (sourceTl : Int) (frame : PreviewFrame)
  | containsQuery (path : String) (sourceTl : Int)
  | clear
deriving DecidableEq, Repr

/-- State transition of one cache operation (`contains` takes `&self` in
the source and cannot change the state). -/
def CacheOp.step (c : PreviewFrameCache) : CacheOp → PreviewFrameCache
  | .get path sourceTl => (c.get path sourceTl).2
  | .insert path sourceTl frame => c.insert path sourceTl frame
  | .containsQuery _ _ => c
  | .clear => c.clear

/-- Runs a sequence of cache operations. -/
def runCacheOps (c : PreviewFrameCache) (ops : List CacheOp) : PreviewFrameCache :=
  ops.foldl CacheOp.step c

/-! ## Command façade (crates/engine/src/api.rs) -/

/-- `api.rs`, `PREFETCH_RADIUS_DIRECTIONAL` (18). -/
def PREFETCH_RADIUS_DIRECTIONAL : Nat := 18

/-- `api.rs`, `PREFETCH_RADIUS_IDLE` (120). -/
def PREFETCH_RADIUS_IDLE : Nat := 120

/-- `api.rs`, `PREFETCH_MAX_DECODES_PER_REQUEST` (1). -/
def PREFETCH_MAX_DECODES_PER_REQUEST : Nat := 1

/-- `api.rs`, enum `ScrubDirection`. -/
inductive ScrubDirection where
  | forward
  | backward
  | unknown
deriving DecidableEq, Repr

/-- `api.rs`, struct `LastPreviewTarget`. -/
structure LastPreviewTarget where
  path : String
  sourceTl : Int
deriving DecidableEq, Repr

/-- `api.rs`, relevant engine state (`Engine<M>`): loaded project, playhead,
preview cache and last preview target.  The media backend is modelled as a
decode oracle passed to each operation; id allocators play no role in the
claims settled here. -/
structure EngineState where
  project : Option Project
  playheadTl : Int
  previewCache : PreviewFrameCache
  lastPreview : Option LastPreviewTarget
deriving DecidableEq, Repr

/-- Decode oracle standing for `MediaBackend::decode_preview_frame`; the
source passes `source_tl / 1e6` seconds, a bijective image of `source_tl`,
so the oracle is keyed by `(path, source_tl)`.  `none` models a backend
decode error. -/
abbrev DecodeOracle := String → Int → Option PreviewFrame

/-- `api.rs`, events emitted by `set_playhead` (the other `Event` variants
are not produced by the operations modelled here). -/
inductive Event where
  | playheadChanged (tTl : Int)
  | previewFrameReady (tTl : Int) (frame : PreviewFrame)
deriving DecidableEq, Repr

/-- `api.rs`, `Engine::scrub_direction`. -/
def scrubDirection (lastPreview : Option LastPreviewTarget)
    (request : PreviewRequest) : ScrubDirection :=
  match lastPreview with
  | none => .unknown
  | some previous =>
    if previous.path ≠ request.path then .unknown
    else if request.sourceTl > previous.sourceTl then .forward
    else if request.sourceTl < previous.sourceTl then .backward
    else .unknown

/-- `api.rs`, `prefetch_offsets`: `1..=18` forward, negated backward, and
the alternating `±1, ±2, …, ±120` sequence when the direction is unknown. -/
def prefetchOffsets (direction : ScrubDirection) : List Int :=
  match direction with
  | .forward => (List.range PREFETCH_RADIUS_DIRECTIONAL).map fun i => (i : Int) + 1
  | .backward => (List.range PREFETCH_RADIUS_DIRECTIONAL).map fun i => -((i : Int) + 1)
  | .unknown =>
    ((List.range PREFETCH_RADIUS_IDLE).map fun i => [((i : Int) + 1), -((i : Int) + 1)]).flatten

/-- Rust `i64::checked_mul`. -/
def checkedMul (a b : Int) : Option Int :=
  if i64Min ≤ a * b ∧ a * b ≤ i64Max then some (a * b) else none

/-- Rust `i64::checked_add`. -/
def checkedAdd (a b : Int) : Option Int :=
  if i64Min ≤ a + b ∧ a + b ≤ i64Max then some (a + b) else none

/-- `api.rs`, `Engine::prefetch_neighbors`, loop: walks the offset list,
skips offsets whose target overflows, is negative or already cached,
decodes the rest (failures are swallowed) and stops once
`PREFETCH_MAX_DECODES_PER_REQUEST` decodes succeeded.  Returns the updated
cache and the successfully decoded targets in order. -/
def prefetchLoop (decode : DecodeOracle) (requestPath : String)
    (requestSourceTl : Int) (cache : PreviewFrameCache) (decoded : Nat) :
    List Int → PreviewFrameCache × List Int
  | [] => (cache, [])
  | offset :: rest =>
    if PREFETCH_MAX_DECODES_PER_REQUEST ≤ decoded then (cache, [])
    else
      match checkedMul cache.bucketSizeTl offset with
      | none => prefetchLoop decode requestPath requestSourceTl cache decoded rest
      | some delta =>
        match checkedAdd requestSourceTl delta with
        | none => prefetchLoop decode requestPath requestSourceTl cache decoded rest
        | some sourceTl =>
          if sourceTl < 0 ∨ cache.containsKey requestPath sourceTl then
            prefetchLoop decode requestPath requestSourceTl cache decoded rest
          else
            match decode requestPath sourceTl with
            | some frame =>
              let cache' := cache.insert requestPath sourceTl frame
              let out := prefetchLoop decode requestPath requestSourceTl cache' (decoded + 1) rest
              (out.1, sourceTl :: out.2)
            | none => prefetchLoop decode requestPath requestSourceTl cache decoded rest

/-- Reference description (for the prefetch claim) of one prefetch round:
the first offset in the list whose target does not overflow, is
non-negative, is uncached with respect to the cache at the start of the
search, and decodes successfully. -/
def firstPrefetchTarget (decode : DecodeOracle) (cache : PreviewFrameCache)
    (path : String) (src : Int) (offsets : List Int) : Option Int :=
  offsets.findSome? fun offset =>
    match checkedMul cache.bucketSizeTl offset with
    | none => none
    | some delta =>
      match checkedAdd src delta with
      | none => none
      | some sourceTl =>
        if sourceTl < 0 ∨ cache.containsKey path sourceTl then none
        else
          match decode path sourceTl with
          | some _ => some sourceTl
          | none => none

/-- `api.rs`, `Engine::prefetch_neighbors`. -/
def prefetchNeighbors (decode : DecodeOracle) (cache : PreviewFrameCache)
    (request : PreviewRequest) (direction : ScrubDirection) :
    PreviewFrameCache × List Int :=
  prefetchLoop decode request.path request.sourceTl cache 0
    (prefetchOffsets direction)

/-- `api.rs`, `Engine::decode_preview_frame_cached`: serves a cache hit
(marking it recently used), otherwise decodes and inserts.  Returns the
frame, the hit flag, the updated cache and the decode targets issued. -/
def decodePreviewFrameCached (decode : DecodeOracle) (cache : PreviewFrameCache)
    (path : String) (sourceTl : Int) :
    Except EngineError (PreviewFrame × Bool × PreviewFrameCache × List Int) :=
  match cache.get path sourceTl with
  | (some frame, cache') => .ok (frame, true, cache', [])
  | (none, _) =>
    match decode path sourceTl with
    | none => .error .media
    | some frame => .ok (frame, false, cache.insert path sourceTl frame, [sourceTl])

/-- `api.rs`, `Engine::set_playhead`: clamps the playhead, emits
`PlayheadChanged`, swallows `SegmentNotFound` from preview mapping, decodes
(cached) the preview frame, and prefetches neighbors only on a cache hit
with unknown scrub direction.  The third result component records the
decode targets issued against the backend. -/
def setPlayhead (decode : DecodeOracle) (s : EngineState) (tTl : Int) :
    Except EngineError (List Event × EngineState × List Int) :=
  match s.project with
  | none => .error .projectNotLoaded
  | some project =>
    let clamped := normalizePlayhead tTl project.durationTl
    let s := { s with playheadTl := clamped }
    let events := [Event.playheadChanged clamped]
    match project.previewRequestAt clamped with
    | .error (.segmentNotFound _) => .ok (events, s, [])
    | .error e => .error e
    | .ok request =>
      let direction := scrubDirection s.lastPreview request
      match decodePreviewFrameCached decode s.previewCache request.path request.sourceTl with
      | .error e => .error e
      | .ok (frame, cacheHit, cache, calls) =>
        let events := events ++ [Event.previewFrameReady clamped frame]
        let pre :=
          if cacheHit ∧ direction = ScrubDirection.unknown then
            prefetchNeighbors decode cache request direction
          else (cache, [])
        .ok (events,
          { s with
            previewCache := pre.1
            lastPreview := some ⟨request.path, request.sourceTl⟩ },
          calls ++ pre.2)

/-! ## Validation invariants (from `project.rs`, `validate_for_persistence`)
used as theorem hypotheses -/

/-- End of a segment's timeline range. -/
def Segment.segEnd (s : Segment) : Int := s.timelineStart + s.timelineDuration

/-- A source range is ordered when both bounds are set (`src_out ≥ src_in`,
enforced by validation; equality allowed). -/
def rangeOrdered : Option Int → Option Int → Bool
  | some a, some b => a ≤ b
  | _, _ => true

/-- Adjacent segments do not overlap (ordered, non-overlapping list). -/
def pairwiseAdjacentOK : List Segment → Bool
  | [] => true
  | [_] => true
  | a :: b :: rest =>
    decide (a.segEnd ≤ b.timelineStart) && pairwiseAdjacentOK (b :: rest)

/-- The timeline invariants `validate_for_persistence` enforces: positive
durations, non-negative starts, no `i64` overflow of `start + duration`,
and no overlap between consecutive segments. -/
def WellFormedTimeline (t : Timeline) : Prop :=
  (∀ s ∈ t.segments, 0 < s.timelineDuration) ∧
  (∀ s ∈ t.segments, 0 ≤ s.timelineStart) ∧
  (∀ s ∈ t.segments, s.segEnd ≤ i64Max) ∧
  pairwiseAdjacentOK t.segments = true

instance (t : Timeline) : Decidable (WellFormedTimeline t) :=
  inferInstanceAs (Decidable (
    (∀ s ∈ t.segments, 0 < s.timelineDuration) ∧
    (∀ s ∈ t.segments, 0 ≤ s.timelineStart) ∧
    (∀ s ∈ t.segments, s.segEnd ≤ i64Max) ∧
    pairwiseAdjacentOK t.segments = true))

/-! ## Specification-side reference definitions (for refinement claims) -/

/-- Spec side of the export claim: the segments the spec says are included
in a successfully built plan — exactly those whose video range is not
zero-length, in timeline order. -/
def includedSegments (p : Project) : List Segment :=
  p.timeline.segments.filter fun s => ¬ s.srcOutVideo = s.srcInVideo

/-- Spec side of the export claim: input paths deduplicated in first-use
order. -/
def dedupFirstUse (paths : List String) : List String :=
  paths.foldl (fun acc path => if path ∈ acc then acc else acc ++ [path]) []

/-- Path of the asset a segment references (used to state the export
input-map claim; a successful plan build guarantees the lookup succeeds). -/
def segmentAssetPath (p : Project) (s : Segment) : String :=
  match p.assets.find? fun asset => asset.id = s.assetId with
  | some asset => asset.path
  | none => ""

/-- Relation between one pushed plan segment (with the timeline segment and
asset it came from) and the input table: the input index resolves to the
asset's path, the video bounds are the unwrapped segment bounds with a
strictly positive range, the asset is the one the pass found for the
segment, and the audio fields are still unset. -/
def PairOK (p : Project) (inputs : List String) (pr : ExportPair) : Prop :=
  inputs[pr.1.inputIndex]? = some pr.2.2.path ∧
  pr.2.1.srcInVideo = some pr.1.srcInVideo ∧
  pr.2.1.srcOutVideo = some pr.1.srcOutVideo ∧
  pr.1.srcInVideo < pr.1.srcOutVideo ∧
  p.assets.find? (fun a => a.id = pr.2.1.assetId) = some pr.2.2 ∧
  pr.1.srcInAudio = none ∧ pr.1.srcOutAudio = none ∧
  pr.1.srcAudioTimeBase = none

/-- Cache representation invariant of every reachable state: entry keys are
unique, the recency order is duplicate-free, and both carry the same key
set. -/
def CacheInv (c : PreviewFrameCache) : Prop :=
  (c.entries.map Prod.fst).Nodup ∧
  c.lruOrder.Nodup ∧
  (∀ k ∈ c.entries.map Prod.fst, k ∈ c.lruOrder) ∧
  (∀ k ∈ c.lruOrder, k ∈ c.entries.map Prod.fst)

instance (c : PreviewFrameCache) : Decidable (CacheInv c) :=
  inferInstanceAs (Decidable (
    (c.entries.map Prod.fst).Nodup ∧
    c.lruOrder.Nodup ∧
    (∀ k ∈ c.entries.map Prod.fst, k ∈ c.lruOrder) ∧
    (∀ k ∈ c.lruOrder, k ∈ c.entries.map Prod.fst)))

/-! ## Concrete fixtures used by witnesses and counterexamples -/

/-- The demo asset of the engine test fixture (1/90000 video clock,
`src_in_video = 90000`, 1.2 s duration; no audio stream needed here). -/
def demoAsset : MediaAsset :=
  { id := 1, path := "demo.mp4", videoStreamIndex := some 0,
    audioStreamIndex := none,
    video := some ⟨⟨1, 90000⟩, 160, 90⟩, audio := none,
    durationTl := 1200000 }

/-- Full-duration segment over `demoAsset`. -/
def demoSegment : Segment :=
  { id := 1, assetId := 1, srcInVideo := some 90000,
    srcOutVideo := some 198000, srcInAudio := none, srcOutAudio := none,
    timelineStart := 0, timelineDuration := 1200000 }

/-- Single-asset, single-segment project. -/
def demoProject : Project := ⟨[demoAsset], ⟨[demoSegment]⟩⟩

/-- A distinguishable preview frame payload. -/
def demoFrame (tag : Nat) : PreviewFrame := ⟨160, 90, .rgba8, [tag]⟩

/-- Decode oracle that always succeeds. -/
def alwaysDecode : DecodeOracle := fun _ _ => some (demoFrame 7)

/-- Engine state scrubbing forward over `demoProject` whose next request
(`t_tl = 500000`, mapping to `source_tl = 1500000`) is already cached:
a cache hit with known (forward) scrub direction. -/
def forwardHitState : EngineState :=
  { project := some demoProject, playheadTl := 0,
    previewCache :=
      (PreviewFrameCache.new 96 33333).insert "demo.mp4" 1500000 (demoFrame 1),
    lastPreview := some ⟨"demo.mp4", 1000000⟩ }

/-- Like `forwardHitState` but the previous request sat at the same
position, so the scrub direction is unknown (idle). -/
def idleHitState : EngineState :=
  { project := some demoProject, playheadTl := 0,
    previewCache :=
      (PreviewFrameCache.new 96 33333).insert "demo.mp4" 1500000 (demoFrame 1),
    lastPreview := some ⟨"demo.mp4", 1500000⟩ }

/-- Project whose single segment starts at tick 1000, leaving the gap
`[0, 1000)` at the head of the timeline. -/
def gapProject : Project :=
  ⟨[demoAsset],
   ⟨[{ demoSegment with timelineStart := 1000, timelineDuration := 1000 }]⟩⟩

/-- Engine state with `gapProject` loaded and an empty cache. -/
def gapState : EngineState :=
  { project := some gapProject, playheadTl := 0,
    previewCache := PreviewFrameCache.new 96 33333, lastPreview := none }

/-- A segment sitting behind a gap: timeline range `[100, 200)`. -/
def lateSegment : Segment :=
  { id := 1, assetId := 1, srcInVideo := none, srcOutVideo := none,
    srcInAudio := none, srcOutAudio := none,
    timelineStart := 100, timelineDuration := 100 }

/-- Timeline whose only segment starts at tick 100 (gap at the head). -/
def lateTimeline : Timeline := ⟨[lateSegment]⟩

/-- Two-segment project over `demoAsset` used by the move/trim witnesses. -/
def pairProject : Project :=
  ⟨[demoAsset],
   ⟨[{ id := 1, assetId := 1, srcInVideo := some 90000,
       srcOutVideo := some 99000, srcInAudio := none, srcOutAudio := none,
       timelineStart := 0, timelineDuration := 100000 },
     { id := 2, assetId := 1, srcInVideo := some 99000,
       srcOutVideo := some 108000, srcInAudio := none, srcOutAudio := none,
       timelineStart := 100000, timelineDuration := 100000 }]⟩⟩

/-- Asset with both a video and an audio stream, used by the export
witness. -/
def avAsset : MediaAsset :=
  { id := 1, path := "av.mp4", videoStreamIndex := some 0,
    audioStreamIndex := some 1,
    video := some ⟨⟨1, 90000⟩, 160, 90⟩,
    audio := some ⟨⟨1, 48000⟩, 48000, 2⟩,
    durationTl := 1000000 }

/-- Export witness project: a normal segment, a zero-length-video segment
(skipped by export) and a zero-length-audio segment (extended by one audio
tick). -/
def exportProject : Project :=
  ⟨[avAsset],
   ⟨[{ id := 1, assetId := 1, srcInVideo := some 0,
       srcOutVideo := some 9000, srcInAudio := some 0,
       srcOutAudio := some 4800, timelineStart := 0,
       timelineDuration := 100000 },
     { id := 2, assetId := 1, srcInVideo := some 9000,
       srcOutVideo := some 9000, srcInAudio := some 4800,
       srcOutAudio := some 4800, timelineStart := 100000,
       timelineDuration := 0 },
     { id := 3, assetId := 1, srcInVideo := some 9000,
       srcOutVideo := some 18000, srcInAudio := some 4800,
       srcOutAudio := some 4800, timelineStart := 100000,
       timelineDuration := 100000 }]⟩⟩

/-- The plan the export builder produces for `exportProject` (checked by
the C4 witness). -/
def exportPlanExpected : ExportVideoPlan :=
  { inputs := ["av.mp4"],
    segments :=
      [{ inputIndex := 0, srcInVideo := 0, srcOutVideo := 9000,
         srcVideoTimeBase := ⟨1, 90000⟩, srcInAudio := some 0,
         srcOutAudio := some 4800, srcAudioTimeBase := some ⟨1, 48000⟩ },
       { inputIndex := 0, srcInVideo := 9000, srcOutVideo := 18000,
         srcVideoTimeBase := ⟨1, 90000⟩, srcInAudio := some 4800,
         srcOutAudio := some 4801, srcAudioTimeBase := some ⟨1, 48000⟩ }],
    audio := some ⟨48000, 2⟩, outputPath := "out.mp4" }

/-- A full two-entry preview cache (capacity 2, bucket size 1000): buckets
`("a", 0)` and `("a", 1)` are cached, with `("a", 0)` least recently used. -/
def lruCache : PreviewFrameCache :=
  { capacity := 2, bucketSizeTl := 1000,
    entries := [(⟨"a", 0⟩, demoFrame 0), (⟨"a", 1⟩, demoFrame 1)],
    lruOrder := [⟨"a", 0⟩, ⟨"a", 1⟩] }

/-- A short exercise of the cache's public surface, used by the C5 witness. -/
def lruOps : List CacheOp :=
  [.insert "a" 0 (demoFrame 0), .insert "a" 1500 (demoFrame 1),
   .get "a" 0, .insert "b" 0 (demoFrame 2), .containsQuery "a" 1500,
   .insert "b" 2500 (demoFrame 3), .clear, .get "a" 0]

/-! # Theorems -/

/-! ## Basic facts about the machine-integer model -/

theorem rustClamp_le (x lo hi : Int) : rustClamp x lo hi ≤ hi := by
  simp [rustClamp]

theorem le_rustClamp (x lo hi : Int) (h : lo ≤ hi) : lo ≤ rustClamp x lo hi := by
  simp [rustClamp, le_min_iff, le_max_iff]
  omega

theorem rustClamp_eq_self (x lo hi : Int) (h1 : lo ≤ x) (h2 : x ≤ hi) :
    rustClamp x lo hi = x := by
  simp [rustClamp]
  omega

theorem i64Min_lt_i64Max : i64Min < i64Max := by decide

theorem i64Min_eq : i64Min = -9223372036854775808 := by decide

theorem i64Max_eq : i64Max = 9223372036854775807 := by decide

/-! ## Rounding lemmas for `div_round_nearest` -/

theorem roundHalfAway_eq_closed_form (m d : Int) (_h0 : 0 ≤ m) (hd : 0 < d) :
    (if m % d * 2 ≥ d then m / d + 1 else m / d) = (2 * m + d) / (2 * d) := by
  have hdne : (2 : Int) * d ≠ 0 := by omega
  have hdecomp : d * (m / d) + m % d = m := Int.ediv_add_emod m d
  have hr0 : 0 ≤ m % d := Int.emod_nonneg m (by omega)
  have hrd : m % d < d := Int.emod_lt_of_pos m hd
  have hsum : 2 * m + d = (2 * (m % d) + d) + (2 * d) * (m / d) := by
    nlinarith [hdecomp]
  rw [hsum, Int.add_mul_ediv_left _ (m / d) hdne]
  by_cases hc : m % d * 2 ≥ d
  · have hone : (2 * (m % d) + d) / (2 * d) = 1 := by
      have hsplit : 2 * (m % d) + d = (2 * (m % d) - d) + 2 * d * 1 := by ring
      rw [hsplit, Int.add_mul_ediv_left _ 1 hdne,
        Int.ediv_eq_zero_of_lt (by omega) (by omega)]
      omega
    rw [if_pos hc, hone]
    omega
  · have hzero : (2 * (m % d) + d) / (2 * d) = 0 :=
      Int.ediv_eq_zero_of_lt (by omega) (by omega)
    rw [if_neg hc, hzero]
    omega

theorem divRoundNearest_eq_away (n d : Int) (hd : 0 < d) :
    divRoundNearest n d =
      (if n < 0 then (-1 : Int) else 1) * ((2 * |n| + d) / (2 * d)) := by
  have hkey := roundHalfAway_eq_closed_form |n| d (abs_nonneg n) hd
  simp only [divRoundNearest]
  by_cases hn : n < 0
  · simp only [if_pos hn, hkey]
    ring
  · simp only [if_neg hn, hkey]
    ring

theorem roundHalfAway_err (m d : Int) (_h0 : 0 ≤ m) (hd : 0 < d) :
    2 * |(if m % d * 2 ≥ d then m / d + 1 else m / d) * d - m| ≤ d := by
  have hdecomp : d * (m / d) + m % d = m := Int.ediv_add_emod m d
  have hr0 : 0 ≤ m % d := Int.emod_nonneg m (by omega)
  have hrd : m % d < d := Int.emod_lt_of_pos m hd
  by_cases hc : m % d * 2 ≥ d
  · rw [if_pos hc]
    have hv : (m / d + 1) * d - m = d - m % d := by nlinarith [hdecomp]
    rw [hv, abs_of_nonneg (by omega)]
    omega
  · rw [if_neg hc]
    have hv : m / d * d - m = -(m % d) := by nlinarith [hdecomp]
    rw [hv, abs_neg, abs_of_nonneg hr0]
    omega

theorem divRoundNearest_err (n d : Int) (hd : 0 < d) :
    2 * |divRoundNearest n d * d - n| ≤ d := by
  have haux := roundHalfAway_err |n| d (abs_nonneg n) hd
  simp only [divRoundNearest]
  by_cases hn : n < 0
  · rw [if_pos hn]
    have habs : |n| = -n := abs_of_neg hn
    rw [habs]
    rw [habs] at haux
    have hrw :
        (-if -n % d * 2 ≥ d then -n / d + 1 else -n / d) * d - n =
          -((if -n % d * 2 ≥ d then -n / d + 1 else -n / d) * d - -n) := by
      ring
    rw [hrw, abs_neg]
    exact haux
  · rw [if_neg hn]
    have habs : |n| = n := abs_of_nonneg (by omega)
    rw [habs]
    rw [habs] at haux
    exact haux

theorem divRoundNearest_eq_of_close (n d z : Int) (hd : 0 < d)
    (h : 2 * |n - z * d| < d) : divRoundNearest n d = z := by
  have he := divRoundNearest_err n d hd
  set w := divRoundNearest n d with hw
  have t1 : |w * d - z * d| ≤ |w * d - n| + |n - z * d| := abs_sub_le _ _ _
  have t2 : |w * d - z * d| = |w - z| * d := by
    rw [← sub_mul, abs_mul, abs_of_pos hd]
  have t5 : |w - z| < 1 := by
    by_contra hcon
    push_neg at hcon
    have hge : d ≤ |w - z| * d := le_mul_of_one_le_left hd.le hcon
    linarith
  have hz : w - z = 0 := Int.abs_lt_one_iff.mp t5
  omega

theorem divRoundNearest_mul_self (t k : Int) (hk : 0 < k) :
    divRoundNearest (t * k) k = t := by
  apply divRoundNearest_eq_of_close _ _ _ hk
  simp [hk]

/-! ## Rescale: bounds, identity, round trip -/

theorem rescale_bounded (ts : Int) (f t : Rational) :
    i64Min ≤ rescale ts f t ∧ rescale ts f t ≤ i64Max := by
  unfold rescale
  exact ⟨le_rustClamp _ _ _ i64Min_lt_i64Max.le, rustClamp_le _ _ _⟩

theorem rescale_self (ts : Int) (r : Rational) (hr : r.Valid)
    (h1 : i64Min ≤ ts) (h2 : ts ≤ i64Max) : rescale ts r r = ts := by
  obtain ⟨hn, hd⟩ := hr
  unfold rescale
  have hrw : ts * r.num * r.den = ts * (r.den * r.num) := by ring
  simp only [hrw, divRoundNearest_mul_self ts (r.den * r.num) (by positivity)]
  exact rustClamp_eq_self _ _ _ h1 h2

theorem rescale_eq_spec (ts : Int) (f t : Rational) (hf : f.Valid)
    (ht : t.Valid) : rescale ts f t = rescaleSpec ts f t := by
  show rustClamp (divRoundNearest (ts * f.num * t.den) (f.den * t.num))
      i64Min i64Max =
    rustClamp ((if ts * f.num * t.den < 0 then (-1 : Int) else 1) *
      ((2 * |ts * f.num * t.den| + f.den * t.num) /
        (2 * (f.den * t.num)))) i64Min i64Max
  rw [divRoundNearest_eq_away _ _ (by nlinarith [hf.2, ht.1])]

theorem rescale_roundtrip_up (x dA dB : Int) (hA : 0 < dA) (hAB : dA < dB)
    (hx : |x| * dB + dA ≤ dA * i64Max) :
    rescale (rescale x ⟨1, dA⟩ ⟨1, dB⟩) ⟨1, dB⟩ ⟨1, dA⟩ = x := by
  have hB : 0 < dB := by omega
  have hMax : (0 : Int) < i64Max := by decide
  have hxle : |x| < i64Max := by
    nlinarith [abs_nonneg x]
  have hinner : rescale x ⟨1, dA⟩ ⟨1, dB⟩ = divRoundNearest (x * dB) dA := by
    unfold rescale
    have hrw : x * (1 : Int) * dB = x * dB := by ring
    simp only [hrw, one_mul, mul_one]
    apply rustClamp_eq_self
    · have herr := divRoundNearest_err (x * dB) dA hA
      have habs : |x * dB| = |x| * dB := by rw [abs_mul, abs_of_pos hB]
      have htri : |divRoundNearest (x * dB) dA * dA| ≤
          |divRoundNearest (x * dB) dA * dA - x * dB| + |x * dB| := by
        calc |divRoundNearest (x * dB) dA * dA|
            = |(divRoundNearest (x * dB) dA * dA - x * dB) + x * dB| := by ring_nf
          _ ≤ |divRoundNearest (x * dB) dA * dA - x * dB| + |x * dB| := abs_add _ _
      have hbnd : |divRoundNearest (x * dB) dA| * dA ≤ |x| * dB + dA := by
        have habs2 : |divRoundNearest (x * dB) dA * dA| =
            |divRoundNearest (x * dB) dA| * dA := by
          rw [abs_mul, abs_of_pos hA]
        nlinarith [htri]
      have hyle : |divRoundNearest (x * dB) dA| ≤ i64Max := by
        nlinarith [abs_nonneg (divRoundNearest (x * dB) dA)]
      have := abs_le.mp hyle
      unfold i64Min i64Max at *
      omega
    · have herr := divRoundNearest_err (x * dB) dA hA
      have habs : |x * dB| = |x| * dB := by rw [abs_mul, abs_of_pos hB]
      have htri : |divRoundNearest (x * dB) dA * dA| ≤
          |divRoundNearest (x * dB) dA * dA - x * dB| + |x * dB| := by
        calc |divRoundNearest (x * dB) dA * dA|
            = |(divRoundNearest (x * dB) dA * dA - x * dB) + x * dB| := by ring_nf
          _ ≤ |divRoundNearest (x * dB) dA * dA - x * dB| + |x * dB| := abs_add _ _
      have hbnd : |divRoundNearest (x * dB) dA| * dA ≤ |x| * dB + dA := by
        have habs2 : |divRoundNearest (x * dB) dA * dA| =
            |divRoundNearest (x * dB) dA| * dA := by
          rw [abs_mul, abs_of_pos hA]
        nlinarith [htri]
      have hyle : |divRoundNearest (x * dB) dA| ≤ i64Max := by
        nlinarith [abs_nonneg (divRoundNearest (x * dB) dA)]
      exact (abs_le.mp hyle).2
  rw [hinner]
  unfold rescale
  have hrw : divRoundNearest (x * dB) dA * (1 : Int) * dA =
      divRoundNearest (x * dB) dA * dA := by ring
  simp only [hrw, one_mul, mul_one]
  have hclose : divRoundNearest (divRoundNearest (x * dB) dA * dA) dB = x := by
    apply divRoundNearest_eq_of_close _ _ _ hB
    have herr := divRoundNearest_err (x * dB) dA hA
    have hrw2 : |divRoundNearest (x * dB) dA * dA - x * dB| =
        |divRoundNearest (x * dB) dA * dA - x * dB| := rfl
    calc 2 * |divRoundNearest (x * dB) dA * dA - x * dB| ≤ dA := herr
      _ < dB := hAB
  rw [hclose]
  apply rustClamp_eq_self
  · have := abs_le.mp hxle.le
    unfold i64Min i64Max at *
    omega
  · exact (abs_le.mp hxle.le).2

/-! ## Claim C1: rescale -/

/-- C1 (amended): `rescale` equals the reference round-ties-away-saturate
formula for every valid pair of rationals; it is exact when `from == to`
for any in-range `i64` timestamp; its result always lies in the `i64`
range (saturation, no wrap); `rescale(90000, 1/90000, 1/1000000) =
1000000` and `rescale(1001, 1/30000, 1/1000000) = 33367`; and for the
stream time bases used in this system (1/90000, 1/48000, 1/30000) paired
with the 1/1000000 timeline base, the forward/back round trip returns `x`
exactly — hence differs by at most one tick — for every `x` whose widened
intermediate does not saturate (`|x| ≤ 2·10^17`); the saturated extreme is
excluded (see the counterexample). -/
theorem rescale_claims :
    (∀ (ts : Int) (f t : Rational), f.Valid → t.Valid →
      rescale ts f t = rescaleSpec ts f t) ∧
    (∀ (ts : Int) (r : Rational), r.Valid → i64Min ≤ ts → ts ≤ i64Max →
      rescale ts r r = ts) ∧
    (∀ (ts : Int) (f t : Rational),
      i64Min ≤ rescale ts f t ∧ rescale ts f t ≤ i64Max) ∧
    rescale 90000 ⟨1, 90000⟩ ⟨1, 1000000⟩ = 1000000 ∧
    rescale 1001 ⟨1, 30000⟩ ⟨1, 1000000⟩ = 33367 ∧
    (∀ (x dA : Int), (dA = 90000 ∨ dA = 48000 ∨ dA = 30000) →
      |x| ≤ 2 * 10 ^ 17 →
      rescale (rescale x ⟨1, dA⟩ ⟨1, 1000000⟩) ⟨1, 1000000⟩ ⟨1, dA⟩ = x) := by
  refine ⟨rescale_eq_spec, rescale_self, rescale_bounded, by decide, by decide, ?_⟩
  intro x dA hdA hx
  have hxv : |x| * 1000000 + dA ≤ dA * i64Max := by
    rcases hdA with h | h | h <;> subst h <;> unfold i64Max <;> nlinarith
  exact rescale_roundtrip_up x dA 1000000 (by omega) (by omega) hxv

/-- C1 witness: the claim theorem applied at concrete inputs — spec
conformance and self-identity at `ts = 7`, and the exact round trip of the
`1/30000 ↔ 1/1000000` pair at `x = 1001`. -/
theorem rescale_claims_witness :
    rescale 7 ⟨1, 90000⟩ ⟨1, 1000000⟩ = rescaleSpec 7 ⟨1, 90000⟩ ⟨1, 1000000⟩ ∧
    rescale 7 ⟨1, 90000⟩ ⟨1, 90000⟩ = 7 ∧
    rescale (rescale 1001 ⟨1, 30000⟩ ⟨1, 1000000⟩) ⟨1, 1000000⟩ ⟨1, 30000⟩ =
      1001 :=
  ⟨rescale_claims.1 7 ⟨1, 90000⟩ ⟨1, 1000000⟩ (by decide) (by decide),
   rescale_claims.2.1 7 ⟨1, 90000⟩ (by decide) (by decide) (by decide),
   rescale_claims.2.2.2.2.2 1001 30000 (by decide) (by decide)⟩

/-- C1 counterexample: at `x = i64::MAX` the forward conversion
`1/90000 → 1/1000000` saturates to `i64::MAX`, and the round trip lands
more than one tick (about `8.4·10^18` ticks) below `x`, refuting the
claim's unrestricted round-trip bound. -/
theorem rescale_roundtrip_saturation_counterexample :
    rescale i64Max ⟨1, 90000⟩ ⟨1, 1000000⟩ = i64Max ∧
    rescale (rescale i64Max ⟨1, 90000⟩ ⟨1, 1000000⟩) ⟨1, 1000000⟩
        ⟨1, 90000⟩ + 1 < i64Max := by
  constructor <;> decide

/-! ## List helpers shared by the timeline theorems -/

theorem set_insertIdx_split {α : Type} (l : List α) (i : Nat) (h : i < l.length)
    (a b : α) :
    (l.set i a).insertIdx (i + 1) b = l.take i ++ a :: b :: l.drop (i + 1) := by
  induction l generalizing i with
  | nil => simp at h
  | cons x xs ih =>
    cases i with
    | zero => simp [List.insertIdx_succ_cons]
    | succ j =>
      simp only [List.set_cons_succ, List.insertIdx_succ_cons, List.take_succ_cons,
        List.drop_succ_cons, List.cons_append]
      rw [ih j (by simpa using h)]

theorem list_decompose_at {α : Type} (l : List α) (i : Nat) (cur : α)
    (h : l[i]? = some cur) : l = l.take i ++ cur :: l.drop (i + 1) := by
  have hlt : i < l.length := by
    by_contra hc
    push_neg at hc
    simp [List.getElem?_eq_none hc] at h
  have hcur : l[i] = cur := by
    have := List.getElem?_eq_getElem hlt
    rw [h] at this
    exact (Option.some_inj.mp this.symm)
  conv_lhs => rw [← List.take_append_drop i l]
  rw [← List.getElem_cons_drop l i hlt, hcur]

theorem durationTl_eq_of_getElem (segs : List Segment) (k : Nat)
    (hk : segs.length = k + 1) (s : Segment) (h : segs[k]? = some s) :
    Timeline.durationTl ⟨segs⟩ = s.timelineStart + s.timelineDuration := by
  have hidx : segs.length - 1 = k := by omega
  unfold Timeline.durationTl
  rw [List.getLast?_eq_getElem?]
  simp only [hidx]
  rw [h]

theorem findIdx?_some_elem {α : Type} (l : List α) (p : α → Bool) (i : Nat)
    (h : l.findIdx? p = some i) : ∃ a, l[i]? = some a ∧ p a = true := by
  obtain ⟨hlt, hEq⟩ := List.findIdx?_eq_some_iff_findIdx_eq.mp h
  refine ⟨l[i], List.getElem?_eq_getElem hlt, ?_⟩
  subst hEq
  exact List.findIdx_getElem

theorem durationTl_split_eq (xs ys : List Segment) (cur left right : Segment)
    (hEnd : right.timelineStart + right.timelineDuration =
      cur.timelineStart + cur.timelineDuration) :
    Timeline.durationTl ⟨xs ++ left :: right :: ys⟩ =
      Timeline.durationTl ⟨xs ++ cur :: ys⟩ := by
  unfold Timeline.durationTl
  rcases ys with _ | ⟨y, ys'⟩
  · have h1 : (xs ++ [left, right]).getLast? = some right := by
      rw [show xs ++ [left, right] = (xs ++ [left]) ++ [right] by simp,
        List.getLast?_concat]
    have h2 : (xs ++ [cur]).getLast? = some cur := List.getLast?_concat xs
    rw [h1, h2]
    simpa using hEnd
  · rw [List.getLast?_append, List.getLast?_append, List.getLast?_cons_cons,
      List.getLast?_cons_cons, List.getLast?_cons_cons]

/-! ## Claim C9: split boundary rejection -/

/-- C9: splitting exactly at any existing segment start or end returns
`SplitPointAtBoundary`; the operation rejects before touching the segment
list, so (in this functional embedding) no modified timeline is produced
and the state is unchanged. -/
theorem split_boundary_rejected (t : Timeline) (atTl : Int) (newId : Nat)
    (vtb atb : Option Rational)
    (h : ∃ s ∈ t.segments, atTl = s.timelineStart ∨ atTl = s.segEnd) :
    t.splitSegment atTl newId vtb atb = .error (.splitPointAtBoundary atTl) := by
  have hb : t.isBoundarySplitPoint atTl = true := by
    rw [Timeline.isBoundarySplitPoint, List.any_eq_true]
    obtain ⟨s, hs, hor⟩ := h
    refine ⟨s, hs, ?_⟩
    simp only [Segment.segEnd] at hor
    exact decide_eq_true hor
  simp [Timeline.splitSegment, hb]

/-- C9 witness: splitting the demo timeline exactly at the start boundary
`0` is rejected. -/
theorem split_boundary_rejected_witness :
    demoProject.timeline.splitSegment 0 2 none none =
      .error (.splitPointAtBoundary 0) :=
  split_boundary_rejected demoProject.timeline 0 2 none none (by decide)

/-! ## Claim C2: split contiguity -/

/-- C2: splitting strictly inside a segment (at no boundary) succeeds and
replaces the found segment by two adjacent pieces: the left piece keeps the
original id and start, the right piece carries the new id and starts at
`at_tl`; `left.start + left.duration = right.start`, the pieces together
span exactly the original segment's range, and the total timeline duration
is unchanged.  For each stream with both source bounds and a time base,
both pieces share the single clamped split value
`clamp(src_in + rescale(left_duration), src_in, src_out)`; a stream with
unset bounds stays unset on both pieces; the outer source bounds are
untouched. -/
theorem split_segment_contiguity (t : Timeline) (atTl : Int) (newId : Nat)
    (vtb atb : Option Rational)
    (_hRanges : ∀ s ∈ t.segments,
      rangeOrdered s.srcInVideo s.srcOutVideo = true ∧
      rangeOrdered s.srcInAudio s.srcOutAudio = true)
    (hIn : ∃ s ∈ t.segments, s.timelineStart < atTl ∧ atTl < s.segEnd)
    (hNotB : ∀ s ∈ t.segments, atTl ≠ s.timelineStart ∧ atTl ≠ s.segEnd) :
    ∃ i cur left right,
      t.findSegmentIndex atTl = some i ∧
      t.segments[i]? = some cur ∧
      cur.timelineStart < atTl ∧ atTl < cur.segEnd ∧
      t.splitSegment atTl newId vtb atb =
        .ok ⟨t.segments.take i ++ left :: right :: t.segments.drop (i + 1)⟩ ∧
      left.id = cur.id ∧
      right.id = newId ∧
      left.timelineStart = cur.timelineStart ∧
      right.timelineStart = atTl ∧
      left.timelineStart + left.timelineDuration = right.timelineStart ∧
      right.timelineStart + right.timelineDuration = cur.segEnd ∧
      Timeline.durationTl
          ⟨t.segments.take i ++ left :: right :: t.segments.drop (i + 1)⟩ =
        t.durationTl ∧
      (∀ si so tb, cur.srcInVideo = some si → cur.srcOutVideo = some so →
        vtb = some tb →
        left.srcOutVideo = some (rustClamp
          (si + rescale (atTl - cur.timelineStart) TIMELINE_TIME_BASE tb) si so) ∧
        right.srcInVideo = left.srcOutVideo) ∧
      (∀ si so tb, cur.srcInAudio = some si → cur.srcOutAudio = some so →
        atb = some tb →
        left.srcOutAudio = some (rustClamp
          (si + rescale (atTl - cur.timelineStart) TIMELINE_TIME_BASE tb) si so) ∧
        right.srcInAudio = left.srcOutAudio) ∧
      (cur.srcInVideo = none → cur.srcOutVideo = none →
        left.srcOutVideo = none ∧ right.srcInVideo = none) ∧
      (cur.srcInAudio = none → cur.srcOutAudio = none →
        left.srcOutAudio = none ∧ right.srcInAudio = none) ∧
      left.srcInVideo = cur.srcInVideo ∧
      left.srcInAudio = cur.srcInAudio ∧
      right.srcOutVideo = cur.srcOutVideo ∧
      right.srcOutAudio = cur.srcOutAudio := by
  have hb : t.isBoundarySplitPoint atTl = false := by
    rw [Timeline.isBoundarySplitPoint, List.any_eq_false]
    intro s hs
    obtain ⟨h1, h2⟩ := hNotB s hs
    simp [h1, h2, Segment.segEnd] at *
    omega
  have hsome : (t.segments.findIdx? (segmentContains atTl)).isSome := by
    rw [List.findIdx?_isSome, List.any_eq_true]
    obtain ⟨s, hs, h1, h2⟩ := hIn
    refine ⟨s, hs, ?_⟩
    simp only [segmentContains, Segment.segEnd] at *
    exact decide_eq_true (by omega)
  obtain ⟨i, hfind⟩ := Option.isSome_iff_exists.mp hsome
  obtain ⟨hlt, hfi⟩ := List.findIdx?_eq_some_iff_findIdx_eq.mp hfind
  set cur := t.segments[i] with hcurdef
  have hget : t.segments[i]? = some cur := List.getElem?_eq_getElem hlt
  have hp : segmentContains atTl cur = true := by
    subst hfi
    exact List.findIdx_getElem
  have hcontains : cur.timelineStart ≤ atTl ∧ atTl < cur.segEnd := by
    simpa [segmentContains, Segment.segEnd, decide_eq_true_iff] using hp
  have hstrict : cur.timelineStart < atTl := by
    have := (hNotB cur (List.getElem_mem hlt)).1
    omega
  have hfind' : t.findSegmentIndex atTl = some i := hfind
  set leftW : Segment :=
    { cur with
      timelineDuration := atTl - cur.timelineStart
      srcOutVideo := (splitStreamRange cur.srcInVideo cur.srcOutVideo
        (atTl - cur.timelineStart) vtb).1
      srcOutAudio := (splitStreamRange cur.srcInAudio cur.srcOutAudio
        (atTl - cur.timelineStart) atb).1 } with hleftW
  set rightW : Segment :=
    { cur with
      id := newId
      srcInVideo := (splitStreamRange cur.srcInVideo cur.srcOutVideo
        (atTl - cur.timelineStart) vtb).2
      srcInAudio := (splitStreamRange cur.srcInAudio cur.srcOutAudio
        (atTl - cur.timelineStart) atb).2
      timelineStart := atTl
      timelineDuration := cur.timelineDuration - (atTl - cur.timelineStart) }
    with hrightW
  have hres : t.splitSegment atTl newId vtb atb =
      .ok ⟨t.segments.take i ++ leftW :: rightW :: t.segments.drop (i + 1)⟩ := by
    unfold Timeline.splitSegment
    rw [hb]
    simp only [Bool.false_eq_true, if_false, hfind', hget]
    rw [set_insertIdx_split t.segments i hlt]
  have hdur : Timeline.durationTl
      ⟨t.segments.take i ++ leftW :: rightW :: t.segments.drop (i + 1)⟩ =
      t.durationTl := by
    have hdecomp := list_decompose_at t.segments i cur hget
    have hEnd : rightW.timelineStart + rightW.timelineDuration =
        cur.timelineStart + cur.timelineDuration := by
      simp only [hrightW]
      omega
    calc Timeline.durationTl
          ⟨t.segments.take i ++ leftW :: rightW :: t.segments.drop (i + 1)⟩ =
        Timeline.durationTl ⟨t.segments.take i ++ cur :: t.segments.drop (i + 1)⟩ :=
          durationTl_split_eq _ _ cur _ _ hEnd
      _ = t.durationTl := by rw [← hdecomp]
  refine ⟨i, cur, leftW, rightW, hfind', hget, hstrict, hcontains.2, hres,
    rfl, rfl, rfl, rfl, by simp only [hleftW, hrightW]; omega,
    by simp only [hrightW, Segment.segEnd]; omega, hdur,
    ?_, ?_, ?_, ?_, rfl, rfl, rfl, rfl⟩
  · intro si so tb h1 h2 h3
    simp only [hleftW, hrightW]
    simp [splitStreamRange, h1, h2, h3]
  · intro si so tb h1 h2 h3
    simp only [hleftW, hrightW]
    simp [splitStreamRange, h1, h2, h3]
  · intro h1 h2
    simp only [hleftW, hrightW]
    simp [splitStreamRange, h1, h2]
  · intro h1 h2
    simp only [hleftW, hrightW]
    simp [splitStreamRange, h1, h2]

/-- C2 witness: the contiguity theorem applied to the demo timeline at
`at_tl = 333333` with the 1/90000 video clock. -/
theorem split_segment_contiguity_witness :
    ∃ i cur left right,
      demoProject.timeline.findSegmentIndex 333333 = some i ∧
      demoProject.timeline.segments[i]? = some cur ∧
      cur.timelineStart < 333333 ∧ 333333 < cur.segEnd ∧
      demoProject.timeline.splitSegment 333333 2 (some ⟨1, 90000⟩) none =
        .ok ⟨demoProject.timeline.segments.take i ++
          left :: right :: demoProject.timeline.segments.drop (i + 1)⟩ ∧
      left.id = cur.id ∧
      right.id = 2 ∧
      left.timelineStart = cur.timelineStart ∧
      right.timelineStart = 333333 ∧
      left.timelineStart + left.timelineDuration = right.timelineStart ∧
      right.timelineStart + right.timelineDuration = cur.segEnd ∧
      Timeline.durationTl
          ⟨demoProject.timeline.segments.take i ++
            left :: right :: demoProject.timeline.segments.drop (i + 1)⟩ =
        demoProject.timeline.durationTl ∧
      (∀ si so tb, cur.srcInVideo = some si → cur.srcOutVideo = some so →
        (some ⟨1, 90000⟩ : Option Rational) = some tb →
        left.srcOutVideo = some (rustClamp
          (si + rescale (333333 - cur.timelineStart) TIMELINE_TIME_BASE tb) si so) ∧
        right.srcInVideo = left.srcOutVideo) ∧
      (∀ si so tb, cur.srcInAudio = some si → cur.srcOutAudio = some so →
        (none : Option Rational) = some tb →
        left.srcOutAudio = some (rustClamp
          (si + rescale (333333 - cur.timelineStart) TIMELINE_TIME_BASE tb) si so) ∧
        right.srcInAudio = left.srcOutAudio) ∧
      (cur.srcInVideo = none → cur.srcOutVideo = none →
        left.srcOutVideo = none ∧ right.srcInVideo = none) ∧
      (cur.srcInAudio = none → cur.srcOutAudio = none →
        left.srcOutAudio = none ∧ right.srcInAudio = none) ∧
      left.srcInVideo = cur.srcInVideo ∧
      left.srcInAudio = cur.srcInAudio ∧
      right.srcOutVideo = cur.srcOutVideo ∧
      right.srcOutAudio = cur.srcOutAudio :=
  split_segment_contiguity demoProject.timeline 333333 2 (some ⟨1, 90000⟩) none
    (by decide) (by decide) (by decide)

/-! ## Claim C3: cut -/

/-- C3 (amended): `cut(at_tl)` removes the segment starting exactly at
`at_tl` when one exists, otherwise the segment containing `at_tl`; every
segment after the removed one is shifted left by exactly the removed
duration and all earlier segments are unchanged; when the removed segment
is not the last one the total duration decreases by exactly the removed
duration (when it is the last, the new duration is the previous segment's
end, so a gap preceding the removed segment additionally collapses — see
the counterexample); `at_tl` in no segment fails with `SegmentNotFound`
and, the operation being rejected before any mutation, the timeline is
unchanged. -/
theorem cut_segment_behavior (t : Timeline) (atTl : Int)
    (hDur : ∀ s ∈ t.segments, 0 < s.timelineDuration) :
    ((∃ s ∈ t.segments, s.timelineStart ≤ atTl ∧ atTl < s.segEnd) →
      ∃ i, t.findCutSegmentIndex atTl = some i) ∧
    (∀ i removed, t.findCutSegmentIndex atTl = some i →
      t.segments[i]? = some removed →
      ∃ rs : List Segment,
        t.cutSegment atTl = .ok (removed, ⟨rs⟩) ∧
        rs.length = t.segments.length - 1 ∧
        (∀ j, j < i → rs[j]? = t.segments[j]?) ∧
        (∀ j, i ≤ j → rs[j]? = (t.segments[j + 1]?).map fun segment =>
          { segment with timelineStart :=
              segment.timelineStart - removed.timelineDuration }) ∧
        ((∃ s ∈ t.segments, s.timelineStart = atTl) →
          removed.timelineStart = atTl) ∧
        ((∀ s ∈ t.segments, ¬ s.timelineStart = atTl) →
          removed.timelineStart ≤ atTl ∧ atTl < removed.segEnd) ∧
        (i + 1 < t.segments.length →
          Timeline.durationTl ⟨rs⟩ = t.durationTl - removed.timelineDuration)) ∧
    ((∀ s ∈ t.segments, ¬ (s.timelineStart ≤ atTl ∧ atTl < s.segEnd)) →
      t.cutSegment atTl = .error (.segmentNotFound atTl)) := by
  refine ⟨?_, ?_, ?_⟩
  · intro ⟨s, hs, h1, h2⟩
    unfold Timeline.findCutSegmentIndex
    cases hcase : t.segments.findIdx? fun segment => segment.timelineStart = atTl with
    | some j => exact ⟨j, by simp [Option.orElse]⟩
    | none =>
      have hsome : (t.segments.findIdx? (segmentContains atTl)).isSome := by
        rw [List.findIdx?_isSome, List.any_eq_true]
        refine ⟨s, hs, ?_⟩
        simp only [segmentContains, Segment.segEnd] at *
        exact decide_eq_true (by omega)
      obtain ⟨j, hj⟩ := Option.isSome_iff_exists.mp hsome
      exact ⟨j, by simp [Option.orElse, Timeline.findSegmentIndex, hj]⟩
  · intro i removed hfind hget
    have hlt : i < t.segments.length := by
      by_contra hc
      push_neg at hc
      simp [List.getElem?_eq_none hc] at hget
    obtain ⟨rs, hrsdef⟩ :
        ∃ rs : List Segment,
          rs = ((t.segments.eraseIdx i).mapIdx fun j segment =>
            if i ≤ j then
              { segment with timelineStart :=
                  segment.timelineStart - removed.timelineDuration }
            else segment) := ⟨_, rfl⟩
    have hlen : rs.length = t.segments.length - 1 := by
      rw [hrsdef, List.length_mapIdx, List.length_eraseIdx, if_pos hlt]
    have hlo : ∀ j, j < i → rs[j]? = t.segments[j]? := by
      intro j hj
      rw [hrsdef, List.getElem?_mapIdx, List.getElem?_eraseIdx, if_pos (by omega)]
      cases t.segments[j]? with
      | none => rfl
      | some s => simp [Nat.not_le.mpr hj]
    have hhi : ∀ j, i ≤ j → rs[j]? = (t.segments[j + 1]?).map fun segment =>
        { segment with timelineStart :=
            segment.timelineStart - removed.timelineDuration } := by
      intro j hj
      rw [hrsdef, List.getElem?_mapIdx, List.getElem?_eraseIdx, if_neg (by omega)]
      cases t.segments[j + 1]? with
      | none => rfl
      | some s => simp [hj]
    have hok : t.cutSegment atTl = .ok (removed, ⟨rs⟩) := by
      unfold Timeline.cutSegment
      rw [hfind]
      simp only [hget, hrsdef]
    clear hrsdef
    refine ⟨rs, hok, hlen, hlo, hhi, ?_, ?_, ?_⟩
    · intro ⟨s, hs, hstart⟩
      have hex : (t.segments.findIdx? fun segment =>
          segment.timelineStart = atTl).isSome := by
        rw [List.findIdx?_isSome, List.any_eq_true]
        exact ⟨s, hs, decide_eq_true hstart⟩
      obtain ⟨j, hj⟩ := Option.isSome_iff_exists.mp hex
      have hij : i = j := by
        unfold Timeline.findCutSegmentIndex at hfind
        rw [hj] at hfind
        simp [Option.orElse] at hfind
        omega
      subst hij
      obtain ⟨a, hga, hpa⟩ := findIdx?_some_elem _ _ _ hj
      rw [hget] at hga
      have ha : removed = a := Option.some_inj.mp hga
      subst ha
      exact of_decide_eq_true hpa
    · intro hnone
      have hfst : (t.segments.findIdx? fun segment =>
          segment.timelineStart = atTl) = none := by
        rw [List.findIdx?_eq_none_iff]
        intro s hs
        simpa using hnone s hs
      unfold Timeline.findCutSegmentIndex at hfind
      rw [hfst] at hfind
      have hfind2 : t.segments.findIdx? (segmentContains atTl) = some i := hfind
      obtain ⟨a, hga, hpa⟩ := findIdx?_some_elem _ _ _ hfind2
      rw [hget] at hga
      have ha : removed = a := Option.some_inj.mp hga
      subst ha
      simpa [segmentContains, Segment.segEnd, decide_eq_true_iff] using hpa
    · intro hint
      have hlast : t.segments[t.segments.length - 1]? =
          some t.segments[t.segments.length - 1] :=
        List.getElem?_eq_getElem (by omega)
      have hrsLast : rs[t.segments.length - 2]? =
          some { t.segments[t.segments.length - 1] with
            timelineStart :=
              t.segments[t.segments.length - 1].timelineStart -
                removed.timelineDuration } := by
        rw [hhi (t.segments.length - 2) (by omega)]
        have hinc : t.segments.length - 2 + 1 = t.segments.length - 1 := by
          omega
        rw [hinc, hlast]
        simp
      have hd1 := durationTl_eq_of_getElem rs (t.segments.length - 2)
        (by omega) _ hrsLast
      have hd2 : t.durationTl =
          t.segments[t.segments.length - 1].timelineStart +
            t.segments[t.segments.length - 1].timelineDuration := by
        have := durationTl_eq_of_getElem t.segments (t.segments.length - 1)
          (by omega) _ hlast
        exact this
      rw [hd1, hd2]
      ring
  · intro hnone
    have hfst : (t.segments.findIdx? fun segment =>
        segment.timelineStart = atTl) = none := by
      rw [List.findIdx?_eq_none_iff]
      intro s hs
      have hd := hDur s hs
      have := hnone s hs
      simp only [Segment.segEnd] at this
      simp only [decide_eq_false_iff_not]
      omega
    have hsnd : t.findSegmentIndex atTl = none := by
      rw [Timeline.findSegmentIndex, List.findIdx?_eq_none_iff]
      intro s hs
      have := hnone s hs
      simp only [segmentContains, Segment.segEnd] at *
      simpa using this
    unfold Timeline.cutSegment Timeline.findCutSegmentIndex
    rw [hfst, hsnd]
    simp [Option.orElse]

/-- C3 witness: the cut theorem applied to the gapped single-segment
timeline at `at_tl = 150`. -/
theorem cut_segment_behavior_witness :
    ((∃ s ∈ lateTimeline.segments,
        s.timelineStart ≤ 150 ∧ (150 : Int) < s.segEnd) →
      ∃ i, lateTimeline.findCutSegmentIndex 150 = some i) ∧
    (∀ i removed, lateTimeline.findCutSegmentIndex 150 = some i →
      lateTimeline.segments[i]? = some removed →
      ∃ rs : List Segment,
        lateTimeline.cutSegment 150 = .ok (removed, ⟨rs⟩) ∧
        rs.length = lateTimeline.segments.length - 1 ∧
        (∀ j, j < i → rs[j]? = lateTimeline.segments[j]?) ∧
        (∀ j, i ≤ j → rs[j]? = (lateTimeline.segments[j + 1]?).map fun segment =>
          { segment with timelineStart :=
              segment.timelineStart - removed.timelineDuration }) ∧
        ((∃ s ∈ lateTimeline.segments, s.timelineStart = 150) →
          removed.timelineStart = 150) ∧
        ((∀ s ∈ lateTimeline.segments, ¬ s.timelineStart = (150 : Int)) →
          removed.timelineStart ≤ 150 ∧ (150 : Int) < removed.segEnd) ∧
        (i + 1 < lateTimeline.segments.length →
          Timeline.durationTl ⟨rs⟩ =
            lateTimeline.durationTl - removed.timelineDuration)) ∧
    ((∀ s ∈ lateTimeline.segments,
        ¬ (s.timelineStart ≤ 150 ∧ (150 : Int) < s.segEnd)) →
      lateTimeline.cutSegment 150 = .error (.segmentNotFound 150)) :=
  cut_segment_behavior lateTimeline 150 (by decide)

/-- C3 counterexample: cutting the only segment of a timeline whose
segment sits behind a gap (`[100, 200)`) removes 100 ticks of segment but
shrinks the total duration by 200 ticks — the duration conjunct of the
claim fails when the removed segment is the last one. -/
theorem cut_duration_gap_counterexample :
    lateTimeline.durationTl = 200 ∧
    lateTimeline.cutSegment 150 = .ok (lateSegment, ⟨[]⟩) ∧
    Timeline.durationTl ⟨[]⟩ = 0 ∧
    ¬ (lateTimeline.durationTl - Timeline.durationTl (⟨[]⟩ : Timeline) =
        lateSegment.timelineDuration) :=
  ⟨by decide, by decide, by decide, by decide⟩

/-! ## Well-formedness helpers -/

theorem wf_fields (t : Timeline) (hwf : WellFormedTimeline t) (s : Segment)
    (hs : s ∈ t.segments) :
    0 < s.timelineDuration ∧ 0 ≤ s.timelineStart ∧ s.segEnd ≤ i64Max :=
  ⟨hwf.1 s hs, hwf.2.1 s hs, hwf.2.2.1 s hs⟩

theorem pairwiseAdjacentOK_getElem (l : List Segment)
    (h : pairwiseAdjacentOK l = true) (i : Nat) (hi : i + 1 < l.length) :
    l[i].segEnd ≤ l[i + 1].timelineStart := by
  induction l generalizing i with
  | nil => simp at hi
  | cons a rest ih =>
    cases rest with
    | nil => simp at hi
    | cons b rest' =>
      rw [pairwiseAdjacentOK, Bool.and_eq_true, decide_eq_true_iff] at h
      cases i with
      | zero => exact h.1
      | succ j => exact ih h.2 j (by simpa using hi)

theorem wf_adjacent (t : Timeline) (hwf : WellFormedTimeline t) (i : Nat)
    (hi : i + 1 < t.segments.length) :
    t.segments[i].segEnd ≤ t.segments[i + 1].timelineStart :=
  pairwiseAdjacentOK_getElem t.segments hwf.2.2.2 i hi

theorem satAdd_eq (a b : Int) (h1 : i64Min ≤ a + b) (h2 : a + b ≤ i64Max) :
    satAdd a b = a + b :=
  rustClamp_eq_self _ _ _ h1 h2

theorem satSub_eq (a b : Int) (h1 : i64Min ≤ a - b) (h2 : a - b ≤ i64Max) :
    satSub a b = a - b :=
  rustClamp_eq_self _ _ _ h1 h2

/-! ## Claim C8: move clamp -/

/-- C8: `move_segment` clamps the requested start between the previous
segment's end and the next segment's start minus the duration (with
saturating arithmetic for the last segment), so the moved segment never
overlaps or inverts with its neighbors; the duration and all four source
fields are untouched (the updated segment differs only in
`timeline_start`) and every other segment is unchanged; moving the last
segment to `i64::MAX` pins its start at exactly `i64::MAX - duration`; an
absent id fails with `SegmentIdNotFound` (rejected before any mutation). -/
theorem move_segment_claims (p : Project) (segmentId : Nat) (newStartTl : Int)
    (hwf : WellFormedTimeline p.timeline) :
    (p.timeline.findSegmentIndexById segmentId = none →
      p.moveSegment segmentId newStartTl =
        .error (.segmentIdNotFound segmentId)) ∧
    (∀ i segment, p.timeline.findSegmentIndexById segmentId = some i →
      p.timeline.segments[i]? = some segment →
      ∃ clamped,
        p.moveSegment segmentId newStartTl =
          .ok { p with timeline := ⟨p.timeline.segments.set i
            { segment with timelineStart := clamped }⟩ } ∧
        (∀ j, j ≠ i →
          (p.timeline.segments.set i
            { segment with timelineStart := clamped })[j]? =
            p.timeline.segments[j]?) ∧
        (i = 0 → 0 ≤ clamped) ∧
        (∀ prev, i ≠ 0 → p.timeline.segments[i - 1]? = some prev →
          prev.segEnd ≤ clamped) ∧
        (∀ next, p.timeline.segments[i + 1]? = some next →
          clamped + segment.timelineDuration ≤ next.timelineStart) ∧
        (i + 1 = p.timeline.segments.length → newStartTl = i64Max →
          clamped = i64Max - segment.timelineDuration)) := by
  constructor
  · intro hnone
    unfold Project.moveSegment
    rw [hnone]
  · intro i segment hfind hget
    have hlt : i < p.timeline.segments.length := by
      by_contra hc
      push_neg at hc
      simp [List.getElem?_eq_none hc] at hget
    have hseg : p.timeline.segments[i] = segment := by
      have := List.getElem?_eq_getElem hlt
      rw [hget] at this
      exact (Option.some_inj.mp this).symm
    obtain ⟨hdur, hstart0, hendM⟩ :=
      wf_fields p.timeline hwf segment (hseg ▸ List.getElem_mem hlt)
    simp only [Segment.segEnd] at hendM
    obtain ⟨prevEnd, hprevEnd⟩ :
        ∃ v, (if i = 0 then (0 : Int) else
          match p.timeline.segments[i - 1]? with
          | some prev => satAdd prev.timelineStart prev.timelineDuration
          | none => 0) = v := ⟨_, rfl⟩
    obtain ⟨maxStart, hmaxStart⟩ :
        ∃ v, (match p.timeline.segments[i + 1]? with
          | some next => satSub next.timelineStart segment.timelineDuration
          | none => satSub i64Max (max segment.timelineDuration 0)) = v :=
      ⟨_, rfl⟩
    have hprevEndDom : prevEnd ≤ segment.timelineStart ∧ 0 ≤ prevEnd := by
      by_cases h0 : i = 0
      · rw [if_pos h0] at hprevEnd
        omega
      · rw [if_neg h0] at hprevEnd
        have hprevlt : i - 1 < p.timeline.segments.length := by omega
        have hprevget : p.timeline.segments[i - 1]? =
            some p.timeline.segments[i - 1] := List.getElem?_eq_getElem hprevlt
        rw [hprevget] at hprevEnd
        replace hprevEnd :
            satAdd p.timeline.segments[i - 1].timelineStart
              p.timeline.segments[i - 1].timelineDuration = prevEnd := hprevEnd
        obtain ⟨hd, hs0, hsM⟩ := wf_fields p.timeline hwf _
          (List.getElem_mem hprevlt)
        simp only [Segment.segEnd] at hsM
        have hadj := wf_adjacent p.timeline hwf (i - 1) (by omega)
        have hip : i - 1 + 1 = i := by omega
        simp only [hip] at hadj
        simp only [Segment.segEnd, hseg] at hadj
        rw [satAdd_eq _ _ (by simp only [i64Min_eq, i64Max_eq] at *; omega)
          (by simp only [i64Min_eq, i64Max_eq] at *; omega)] at hprevEnd
        omega
    have hmaxStartDom : prevEnd ≤ maxStart ∧
        (∀ next, p.timeline.segments[i + 1]? = some next →
          maxStart = next.timelineStart - segment.timelineDuration) ∧
        (i + 1 = p.timeline.segments.length →
          maxStart = i64Max - segment.timelineDuration) := by
      cases hnext : p.timeline.segments[i + 1]? with
      | some next =>
        rw [hnext] at hmaxStart
        replace hmaxStart :
            satSub next.timelineStart segment.timelineDuration = maxStart :=
          hmaxStart
        have hnextlt : i + 1 < p.timeline.segments.length := by
          by_contra hc
          push_neg at hc
          simp [List.getElem?_eq_none hc] at hnext
        have hnexteq : p.timeline.segments[i + 1] = next := by
          have := List.getElem?_eq_getElem hnextlt
          rw [hnext] at this
          exact (Option.some_inj.mp this).symm
        obtain ⟨hnd, hns0, hnsM⟩ := wf_fields p.timeline hwf next
          (hnexteq ▸ List.getElem_mem hnextlt)
        simp only [Segment.segEnd] at hnsM
        have hadj := wf_adjacent p.timeline hwf i hnextlt
        rw [hseg, hnexteq] at hadj
        simp only [Segment.segEnd] at hadj
        rw [satSub_eq _ _ (by simp only [i64Min_eq, i64Max_eq] at *; omega)
          (by simp only [i64Min_eq, i64Max_eq] at *; omega)] at hmaxStart
        refine ⟨by omega, ?_, ?_⟩
        · intro next' hnext'
          have hnn : next = next' := Option.some_inj.mp hnext'
          subst hnn
          omega
        · intro hlast
          exfalso
          omega
      | none =>
        rw [hnext] at hmaxStart
        replace hmaxStart :
            satSub i64Max (max segment.timelineDuration 0) = maxStart :=
          hmaxStart
        have hmx : max segment.timelineDuration 0 = segment.timelineDuration := by
          omega
        rw [hmx, satSub_eq _ _ (by simp only [i64Min_eq, i64Max_eq] at *; omega)
          (by simp only [i64Min_eq, i64Max_eq] at *; omega)] at hmaxStart
        refine ⟨by omega, ?_, fun _ => by omega⟩
        intro next' hnext'
        cases hnext'
    refine ⟨rustClamp (max newStartTl 0) prevEnd (max maxStart prevEnd),
      ?_, ?_, ?_, ?_, ?_, ?_⟩
    · unfold Project.moveSegment
      rw [hfind]
      simp only [hget, hprevEnd, hmaxStart]
    · intro j hj
      exact List.getElem?_set_ne (fun h => hj h.symm)
    · intro h0
      rw [if_pos h0] at hprevEnd
      have := le_rustClamp (max newStartTl 0) prevEnd (max maxStart prevEnd)
        (le_max_right _ _)
      omega
    · intro prev hne hprev
      rw [if_neg hne, hprev] at hprevEnd
      replace hprevEnd :
          satAdd prev.timelineStart prev.timelineDuration = prevEnd := hprevEnd
      have hprevlt : i - 1 < p.timeline.segments.length := by omega
      have hpe : p.timeline.segments[i - 1] = prev := by
        have := List.getElem?_eq_getElem hprevlt
        rw [hprev] at this
        exact (Option.some_inj.mp this).symm
      obtain ⟨hd, hs0, hsM⟩ := wf_fields p.timeline hwf prev
        (hpe ▸ List.getElem_mem hprevlt)
      simp only [Segment.segEnd] at hsM
      rw [satAdd_eq _ _ (by simp only [i64Min_eq, i64Max_eq] at *; omega)
        (by simp only [i64Min_eq, i64Max_eq] at *; omega)] at hprevEnd
      have := le_rustClamp (max newStartTl 0) prevEnd (max maxStart prevEnd)
        (le_max_right _ _)
      simp only [Segment.segEnd]
      omega
    · intro next hnext
      have hms := hmaxStartDom.2.1 next hnext
      have hle : rustClamp (max newStartTl 0) prevEnd (max maxStart prevEnd) ≤
          max maxStart prevEnd := rustClamp_le _ _ _
      have hmaxeq : max maxStart prevEnd = maxStart := by
        have := hmaxStartDom.1
        omega
      omega
    · intro hlast hmaxreq
      have hms := hmaxStartDom.2.2 hlast
      have hmaxeq : max maxStart prevEnd = maxStart := by
        have := hmaxStartDom.1
        omega
      subst hmaxreq
      rw [hmaxeq, hms]
      unfold rustClamp
      simp only [i64Min_eq, i64Max_eq] at *
      omega

/-- C8 witness: the move theorem applied to `pairProject`, moving segment 2
(the last one) to `i64::MAX`. -/
theorem move_segment_claims_witness :
    (pairProject.timeline.findSegmentIndexById 2 = none →
      pairProject.moveSegment 2 i64Max =
        .error (.segmentIdNotFound 2)) ∧
    (∀ i segment, pairProject.timeline.findSegmentIndexById 2 = some i →
      pairProject.timeline.segments[i]? = some segment →
      ∃ clamped,
        pairProject.moveSegment 2 i64Max =
          .ok { pairProject with timeline := ⟨pairProject.timeline.segments.set i
            { segment with timelineStart := clamped }⟩ } ∧
        (∀ j, j ≠ i →
          (pairProject.timeline.segments.set i
            { segment with timelineStart := clamped })[j]? =
            pairProject.timeline.segments[j]?) ∧
        (i = 0 → 0 ≤ clamped) ∧
        (∀ prev, i ≠ 0 → pairProject.timeline.segments[i - 1]? = some prev →
          prev.segEnd ≤ clamped) ∧
        (∀ next, pairProject.timeline.segments[i + 1]? = some next →
          clamped + segment.timelineDuration ≤ next.timelineStart) ∧
        (i + 1 = pairProject.timeline.segments.length → i64Max = i64Max →
          clamped = i64Max - segment.timelineDuration)) :=
  move_segment_claims pairProject 2 i64Max (by decide)

/-! ## Claim C7: trim minimum duration and clamped source points -/

/-- C7: for a segment id present in the project (and its asset resolvable),
`trim_segment_start` / `trim_segment_end` always succeed, keep at least one
tick of duration, never cross the adjacent segment (the start never drops
below the previous segment's end, the end never passes the next segment's
start), leave the other boundary, the unaffected source fields and all
other segments unchanged, and shift the affected source points by the
rescaled delta with the result pinned at zero (never negative, never
rejected); an absent id fails with `SegmentIdNotFound`. -/
theorem trim_claims (p : Project) (segmentId : Nat) (req : Int)
    (hwf : WellFormedTimeline p.timeline) :
    (p.timeline.findSegmentIndexById segmentId = none →
      p.trimSegmentStart segmentId req =
        .error (.segmentIdNotFound segmentId) ∧
      p.trimSegmentEnd segmentId req =
        .error (.segmentIdNotFound segmentId)) ∧
    (∀ i segment asset, p.timeline.findSegmentIndexById segmentId = some i →
      p.timeline.segments[i]? = some segment →
      p.assetById segment.assetId = .ok asset →
      (∃ updated,
        p.trimSegmentStart segmentId req =
          .ok { p with timeline := ⟨p.timeline.segments.set i updated⟩ } ∧
        1 ≤ updated.timelineDuration ∧
        (i = 0 → 0 ≤ updated.timelineStart) ∧
        (∀ prev, i ≠ 0 → p.timeline.segments[i - 1]? = some prev →
          prev.segEnd ≤ updated.timelineStart) ∧
        updated.segEnd = segment.segEnd ∧
        updated.srcOutVideo = segment.srcOutVideo ∧
        updated.srcOutAudio = segment.srcOutAudio ∧
        updated.id = segment.id ∧
        updated.assetId = segment.assetId ∧
        (∀ pt vinfo, segment.srcInVideo = some pt → asset.video = some vinfo →
          updated.srcInVideo = some (max (satAdd pt
            (rescale (updated.timelineStart - segment.timelineStart)
              TIMELINE_TIME_BASE vinfo.timeBase)) 0)) ∧
        (∀ pt ainfo, segment.srcInAudio = some pt → asset.audio = some ainfo →
          updated.srcInAudio = some (max (satAdd pt
            (rescale (updated.timelineStart - segment.timelineStart)
              TIMELINE_TIME_BASE ainfo.timeBase)) 0)) ∧
        (∀ v, updated.srcInVideo = some v → asset.video.isSome → 0 ≤ v) ∧
        (∀ v, updated.srcInAudio = some v → asset.audio.isSome → 0 ≤ v) ∧
        (∀ j, j ≠ i →
          (p.timeline.segments.set i updated)[j]? =
            p.timeline.segments[j]?)) ∧
      (∃ updated,
        p.trimSegmentEnd segmentId req =
          .ok { p with timeline := ⟨p.timeline.segments.set i updated⟩ } ∧
        1 ≤ updated.timelineDuration ∧
        updated.timelineStart = segment.timelineStart ∧
        (∀ next, p.timeline.segments[i + 1]? = some next →
          updated.segEnd ≤ next.timelineStart) ∧
        (i + 1 = p.timeline.segments.length → updated.segEnd ≤ i64Max) ∧
        updated.srcInVideo = segment.srcInVideo ∧
        updated.srcInAudio = segment.srcInAudio ∧
        updated.id = segment.id ∧
        updated.assetId = segment.assetId ∧
        (∀ pt vinfo, segment.srcOutVideo = some pt → asset.video = some vinfo →
          updated.srcOutVideo = some (max (satAdd pt
            (rescale (updated.segEnd - segment.segEnd)
              TIMELINE_TIME_BASE vinfo.timeBase)) 0)) ∧
        (∀ pt ainfo, segment.srcOutAudio = some pt → asset.audio = some ainfo →
          updated.srcOutAudio = some (max (satAdd pt
            (rescale (updated.segEnd - segment.segEnd)
              TIMELINE_TIME_BASE ainfo.timeBase)) 0)) ∧
        (∀ v, updated.srcOutVideo = some v → asset.video.isSome → 0 ≤ v) ∧
        (∀ v, updated.srcOutAudio = some v → asset.audio.isSome → 0 ≤ v) ∧
        (∀ j, j ≠ i →
          (p.timeline.segments.set i updated)[j]? =
            p.timeline.segments[j]?))) := by
  constructor
  · intro hnone
    constructor
    · unfold Project.trimSegmentStart
      rw [hnone]
    · unfold Project.trimSegmentEnd
      rw [hnone]
  · intro i segment asset hfind hget hasset
    have hlt : i < p.timeline.segments.length := by
      by_contra hc
      push_neg at hc
      simp [List.getElem?_eq_none hc] at hget
    have hseg : p.timeline.segments[i] = segment := by
      have := List.getElem?_eq_getElem hlt
      rw [hget] at this
      exact (Option.some_inj.mp this).symm
    obtain ⟨hdur, hstart0, hendM⟩ :=
      wf_fields p.timeline hwf segment (hseg ▸ List.getElem_mem hlt)
    simp only [Segment.segEnd] at hendM
    obtain ⟨prevEnd, hprevEnd⟩ :
        ∃ v, (if i = 0 then (0 : Int) else
          match p.timeline.segments[i - 1]? with
          | some prev => prev.timelineStart + prev.timelineDuration
          | none => 0) = v := ⟨_, rfl⟩
    have hprevEndDom : prevEnd ≤ segment.timelineStart ∧ 0 ≤ prevEnd := by
      by_cases h0 : i = 0
      · rw [if_pos h0] at hprevEnd
        omega
      · rw [if_neg h0] at hprevEnd
        have hprevlt : i - 1 < p.timeline.segments.length := by omega
        have hprevget : p.timeline.segments[i - 1]? =
            some p.timeline.segments[i - 1] := List.getElem?_eq_getElem hprevlt
        rw [hprevget] at hprevEnd
        replace hprevEnd :
            p.timeline.segments[i - 1].timelineStart +
              p.timeline.segments[i - 1].timelineDuration = prevEnd := hprevEnd
        obtain ⟨hd, hs0, hsM⟩ := wf_fields p.timeline hwf _
          (List.getElem_mem hprevlt)
        have hadj := wf_adjacent p.timeline hwf (i - 1) (by omega)
        have hip : i - 1 + 1 = i := by omega
        simp only [hip] at hadj
        simp only [Segment.segEnd, hseg] at hadj
        omega
    obtain ⟨nextStart, hnextStart⟩ :
        ∃ v, (match p.timeline.segments[i + 1]? with
          | some next => next.timelineStart
          | none => i64Max) = v := ⟨_, rfl⟩
    have hnextStartDom : segment.segEnd ≤ nextStart ∧
        (∀ next, p.timeline.segments[i + 1]? = some next →
          nextStart = next.timelineStart) ∧ nextStart ≤ i64Max := by
      cases hnext : p.timeline.segments[i + 1]? with
      | some next =>
        rw [hnext] at hnextStart
        replace hnextStart : next.timelineStart = nextStart := hnextStart
        have hnextlt : i + 1 < p.timeline.segments.length := by
          by_contra hc
          push_neg at hc
          simp [List.getElem?_eq_none hc] at hnext
        have hnexteq : p.timeline.segments[i + 1] = next := by
          have := List.getElem?_eq_getElem hnextlt
          rw [hnext] at this
          exact (Option.some_inj.mp this).symm
        obtain ⟨hnd, hns0, hnsM⟩ := wf_fields p.timeline hwf next
          (hnexteq ▸ List.getElem_mem hnextlt)
        have hadj := wf_adjacent p.timeline hwf i hnextlt
        rw [hseg, hnexteq] at hadj
        simp only [Segment.segEnd] at hadj hnsM ⊢
        refine ⟨by omega, ?_, by omega⟩
        intro next' hnext'
        have hnn : next = next' := Option.some_inj.mp hnext'
        subst hnn
        omega
      | none =>
        rw [hnext] at hnextStart
        replace hnextStart : i64Max = nextStart := hnextStart
        simp only [Segment.segEnd]
        refine ⟨by omega, ?_, by omega⟩
        intro next' hnext'
        cases hnext'
    constructor
    · refine ⟨{ segment with
        timelineStart := rustClamp req prevEnd
          (segment.timelineStart + segment.timelineDuration - 1)
        timelineDuration := segment.timelineStart + segment.timelineDuration -
          rustClamp req prevEnd
            (segment.timelineStart + segment.timelineDuration - 1)
        srcInVideo := shiftStreamPoint segment.srcInVideo
          (rustClamp req prevEnd
            (segment.timelineStart + segment.timelineDuration - 1) -
            segment.timelineStart)
          (asset.video.map fun video => video.timeBase)
        srcInAudio := shiftStreamPoint segment.srcInAudio
          (rustClamp req prevEnd
            (segment.timelineStart + segment.timelineDuration - 1) -
            segment.timelineStart)
          (asset.audio.map fun audio => audio.timeBase) },
        ?_, ?_, ?_, ?_, ?_, rfl, rfl, rfl, rfl, ?_, ?_, ?_, ?_, ?_⟩
      · unfold Project.trimSegmentStart
        rw [hfind]
        simp only [hget, hasset, hprevEnd]
      · have h1 := rustClamp_le req prevEnd
          (segment.timelineStart + segment.timelineDuration - 1)
        simp only []
        omega
      · intro h0
        rw [if_pos h0] at hprevEnd
        have h2 := le_rustClamp req prevEnd
          (segment.timelineStart + segment.timelineDuration - 1)
          (by omega)
        simp only []
        omega
      · intro prev hne hprev
        rw [if_neg hne, hprev] at hprevEnd
        replace hprevEnd :
            prev.timelineStart + prev.timelineDuration = prevEnd := hprevEnd
        have h2 := le_rustClamp req prevEnd
          (segment.timelineStart + segment.timelineDuration - 1)
          (by omega)
        simp only [Segment.segEnd]
        omega
      · simp only [Segment.segEnd]
        ring
      · intro pt vinfo hpt hv
        simp only [hpt, hv, shiftStreamPoint, Option.map_some', Segment.segEnd]
      · intro pt ainfo hpt ha
        simp only [hpt, ha, shiftStreamPoint, Option.map_some', Segment.segEnd]
      · intro v hv hvs
        obtain ⟨vinfo, hvi⟩ := Option.isSome_iff_exists.mp hvs
        simp only [hvi, Option.map_some'] at hv
        cases hsi : segment.srcInVideo with
        | none => rw [hsi] at hv; simp [shiftStreamPoint] at hv
        | some pt =>
          rw [hsi] at hv
          simp only [shiftStreamPoint] at hv
          have := Option.some_inj.mp hv
          omega
      · intro v hv hvs
        obtain ⟨ainfo, hai⟩ := Option.isSome_iff_exists.mp hvs
        simp only [hai, Option.map_some'] at hv
        cases hsi : segment.srcInAudio with
        | none => rw [hsi] at hv; simp [shiftStreamPoint] at hv
        | some pt =>
          rw [hsi] at hv
          simp only [shiftStreamPoint] at hv
          have := Option.some_inj.mp hv
          omega
      · intro j hj
        exact List.getElem?_set_ne (fun h => hj h.symm)
    · refine ⟨{ segment with
        timelineDuration := rustClamp req (segment.timelineStart + 1)
          nextStart - segment.timelineStart
        srcOutVideo := shiftStreamPoint segment.srcOutVideo
          (rustClamp req (segment.timelineStart + 1) nextStart -
            (segment.timelineStart + segment.timelineDuration))
          (asset.video.map fun video => video.timeBase)
        srcOutAudio := shiftStreamPoint segment.srcOutAudio
          (rustClamp req (segment.timelineStart + 1) nextStart -
            (segment.timelineStart + segment.timelineDuration))
          (asset.audio.map fun audio => audio.timeBase) },
        ?_, ?_, rfl, ?_, ?_, rfl, rfl, rfl, rfl, ?_, ?_, ?_, ?_, ?_⟩
      · unfold Project.trimSegmentEnd
        rw [hfind]
        simp only [hget, hasset, hnextStart]
      · have h2 := le_rustClamp req (segment.timelineStart + 1) nextStart
          (by have := hnextStartDom.1; simp only [Segment.segEnd] at this; omega)
        simp only []
        omega
      · intro next hnext
        have hns := hnextStartDom.2.1 next hnext
        have h1 := rustClamp_le req (segment.timelineStart + 1) nextStart
        simp only [Segment.segEnd]
        omega
      · intro hlast
        have h1 := rustClamp_le req (segment.timelineStart + 1) nextStart
        have := hnextStartDom.2.2
        simp only [Segment.segEnd]
        omega
      · intro pt vinfo hpt hv
        simp only [hpt, hv, shiftStreamPoint, Option.map_some', Segment.segEnd]
        ring_nf
      · intro pt ainfo hpt ha
        simp only [hpt, ha, shiftStreamPoint, Option.map_some', Segment.segEnd]
        ring_nf
      · intro v hv hvs
        obtain ⟨vinfo, hvi⟩ := Option.isSome_iff_exists.mp hvs
        simp only [hvi, Option.map_some'] at hv
        cases hsi : segment.srcOutVideo with
        | none => rw [hsi] at hv; simp [shiftStreamPoint] at hv
        | some pt =>
          rw [hsi] at hv
          simp only [shiftStreamPoint] at hv
          have := Option.some_inj.mp hv
          omega
      · intro v hv hvs
        obtain ⟨ainfo, hai⟩ := Option.isSome_iff_exists.mp hvs
        simp only [hai, Option.map_some'] at hv
        cases hsi : segment.srcOutAudio with
        | none => rw [hsi] at hv; simp [shiftStreamPoint] at hv
        | some pt =>
          rw [hsi] at hv
          simp only [shiftStreamPoint] at hv
          have := Option.some_inj.mp hv
          omega
      · intro j hj
        exact List.getElem?_set_ne (fun h => hj h.symm)

/-- C7 witness: the trim theorem applied to `pairProject`, segment 2,
requested boundary 150000. -/
theorem trim_claims_witness :
    (pairProject.timeline.findSegmentIndexById 2 = none →
      pairProject.trimSegmentStart 2 150000 =
        .error (.segmentIdNotFound 2) ∧
      pairProject.trimSegmentEnd 2 150000 =
        .error (.segmentIdNotFound 2)) ∧
    (∀ i segment asset, pairProject.timeline.findSegmentIndexById 2 = some i →
      pairProject.timeline.segments[i]? = some segment →
      pairProject.assetById segment.assetId = .ok asset →
      (∃ updated,
        pairProject.trimSegmentStart 2 150000 =
          .ok { pairProject with timeline := ⟨pairProject.timeline.segments.set i updated⟩ } ∧
        1 ≤ updated.timelineDuration ∧
        (i = 0 → 0 ≤ updated.timelineStart) ∧
        (∀ prev, i ≠ 0 → pairProject.timeline.segments[i - 1]? = some prev →
          prev.segEnd ≤ updated.timelineStart) ∧
        updated.segEnd = segment.segEnd ∧
        updated.srcOutVideo = segment.srcOutVideo ∧
        updated.srcOutAudio = segment.srcOutAudio ∧
        updated.id = segment.id ∧
        updated.assetId = segment.assetId ∧
        (∀ pt vinfo, segment.srcInVideo = some pt → asset.video = some vinfo →
          updated.srcInVideo = some (max (satAdd pt
            (rescale (updated.timelineStart - segment.timelineStart)
              TIMELINE_TIME_BASE vinfo.timeBase)) 0)) ∧
        (∀ pt ainfo, segment.srcInAudio = some pt → asset.audio = some ainfo →
          updated.srcInAudio = some (max (satAdd pt
            (rescale (updated.timelineStart - segment.timelineStart)
              TIMELINE_TIME_BASE ainfo.timeBase)) 0)) ∧
        (∀ v, updated.srcInVideo = some v → asset.video.isSome → 0 ≤ v) ∧
        (∀ v, updated.srcInAudio = some v → asset.audio.isSome → 0 ≤ v) ∧
        (∀ j, j ≠ i →
          (pairProject.timeline.segments.set i updated)[j]? =
            pairProject.timeline.segments[j]?)) ∧
      (∃ updated,
        pairProject.trimSegmentEnd 2 150000 =
          .ok { pairProject with timeline := ⟨pairProject.timeline.segments.set i updated⟩ } ∧
        1 ≤ updated.timelineDuration ∧
        updated.timelineStart = segment.timelineStart ∧
        (∀ next, pairProject.timeline.segments[i + 1]? = some next →
          updated.segEnd ≤ next.timelineStart) ∧
        (i + 1 = pairProject.timeline.segments.length → updated.segEnd ≤ i64Max) ∧
        updated.srcInVideo = segment.srcInVideo ∧
        updated.srcInAudio = segment.srcInAudio ∧
        updated.id = segment.id ∧
        updated.assetId = segment.assetId ∧
        (∀ pt vinfo, segment.srcOutVideo = some pt → asset.video = some vinfo →
          updated.srcOutVideo = some (max (satAdd pt
            (rescale (updated.segEnd - segment.segEnd)
              TIMELINE_TIME_BASE vinfo.timeBase)) 0)) ∧
        (∀ pt ainfo, segment.srcOutAudio = some pt → asset.audio = some ainfo →
          updated.srcOutAudio = some (max (satAdd pt
            (rescale (updated.segEnd - segment.segEnd)
              TIMELINE_TIME_BASE ainfo.timeBase)) 0)) ∧
        (∀ v, updated.srcOutVideo = some v → asset.video.isSome → 0 ≤ v) ∧
        (∀ v, updated.srcOutAudio = some v → asset.audio.isSome → 0 ≤ v) ∧
        (∀ j, j ≠ i →
          (pairProject.timeline.segments.set i updated)[j]? =
            pairProject.timeline.segments[j]?))) :=
  trim_claims pairProject 2 150000 (by decide)

/-! ## Claim C10: SetPlayhead clamping and gap handling -/

/-- C10: with a project loaded, `set_playhead` clamps the requested
position into `[0, duration - 1]` (0 when the duration is not positive) and
— whenever the command succeeds — emits `PlayheadChanged` carrying exactly
the clamped value as its first event and stores it as the playhead; when
the clamped position falls into a timeline gap (`preview_request_at`
returns `SegmentNotFound`) the command still succeeds with
`PlayheadChanged` alone, the error is swallowed, and no backend decode is
issued. -/
theorem set_playhead_claims (decode : DecodeOracle) (s : EngineState)
    (tTl : Int) (project : Project) (hp : s.project = some project) :
    (0 ≤ normalizePlayhead tTl project.durationTl ∧
      (project.durationTl ≤ 0 → normalizePlayhead tTl project.durationTl = 0) ∧
      (0 < project.durationTl →
        normalizePlayhead tTl project.durationTl ≤ project.durationTl - 1)) ∧
    (∀ events s' calls, setPlayhead decode s tTl = .ok (events, s', calls) →
      events.head? = some
        (.playheadChanged (normalizePlayhead tTl project.durationTl)) ∧
      s'.playheadTl = normalizePlayhead tTl project.durationTl) ∧
    (∀ x, project.previewRequestAt (normalizePlayhead tTl project.durationTl) =
        .error (.segmentNotFound x) →
      setPlayhead decode s tTl = .ok
        ([.playheadChanged (normalizePlayhead tTl project.durationTl)],
          { s with playheadTl := normalizePlayhead tTl project.durationTl },
          [])) := by
  refine ⟨?_, ?_, ?_⟩
  · unfold normalizePlayhead rustClamp
    by_cases hd : project.durationTl ≤ 0
    · simp [hd]
    · simp [hd]
      omega
  · intro events s' calls hok
    unfold setPlayhead at hok
    rw [hp] at hok
    simp only [] at hok
    cases hreq : project.previewRequestAt (normalizePlayhead tTl project.durationTl) with
    | error e =>
      cases e
      case segmentNotFound x =>
        simp only [hreq, Except.ok.injEq, Prod.mk.injEq] at hok
        obtain ⟨h1, h2, h3⟩ := hok
        subst h1
        subst h2
        exact ⟨rfl, rfl⟩
      all_goals simp [hreq] at hok
    | ok request =>
      cases hdec : decodePreviewFrameCached decode s.previewCache
          request.path request.sourceTl with
      | error e2 =>
        simp only [hreq, hdec] at hok
        cases hok
      | ok tup =>
        obtain ⟨frame, cacheHit, cache, calls'⟩ := tup
        simp only [hreq, hdec] at hok
        simp only [Except.ok.injEq, Prod.mk.injEq] at hok
        obtain ⟨h1, h2, h3⟩ := hok
        subst h1
        subst h2
        exact ⟨rfl, rfl⟩
  · intro x hreq
    unfold setPlayhead
    rw [hp]
    simp only [hreq]

/-- C10 witness: the playhead theorem applied to `gapState` (project with a
gap at `[0, 1000)`) at `t_tl = 500`. -/
theorem set_playhead_claims_witness :
    (0 ≤ normalizePlayhead 500 gapProject.durationTl ∧
      (gapProject.durationTl ≤ 0 → normalizePlayhead 500 gapProject.durationTl = 0) ∧
      (0 < gapProject.durationTl →
        normalizePlayhead 500 gapProject.durationTl ≤ gapProject.durationTl - 1)) ∧
    (∀ events s' calls, setPlayhead alwaysDecode gapState 500 = .ok (events, s', calls) →
      events.head? = some
        (.playheadChanged (normalizePlayhead 500 gapProject.durationTl)) ∧
      s'.playheadTl = normalizePlayhead 500 gapProject.durationTl) ∧
    (∀ x, gapProject.previewRequestAt (normalizePlayhead 500 gapProject.durationTl) =
        .error (.segmentNotFound x) →
      setPlayhead alwaysDecode gapState 500 = .ok
        ([.playheadChanged (normalizePlayhead 500 gapProject.durationTl)],
          { gapState with playheadTl := normalizePlayhead 500 gapProject.durationTl },
          [])) :=
  set_playhead_claims alwaysDecode gapState 500 gapProject rfl

/-! ## Claim C6: prefetch policy -/

theorem prefetchLoop_maxed (decode : DecodeOracle) (path : String) (src : Int)
    (cache : PreviewFrameCache) (decoded : Nat) (offsets : List Int)
    (h : PREFETCH_MAX_DECODES_PER_REQUEST ≤ decoded) :
    (prefetchLoop decode path src cache decoded offsets).2 = [] := by
  cases offsets with
  | nil => rfl
  | cons offset rest => simp [prefetchLoop, h]

theorem prefetchLoop_calls_eq (decode : DecodeOracle) (path : String)
    (src : Int) (cache : PreviewFrameCache) (offsets : List Int) :
    (prefetchLoop decode path src cache 0 offsets).2 =
      (firstPrefetchTarget decode cache path src offsets).toList := by
  induction offsets with
  | nil => rfl
  | cons offset rest ih =>
    rw [prefetchLoop, firstPrefetchTarget, List.findSome?_cons]
    rw [if_neg (by simp [PREFETCH_MAX_DECODES_PER_REQUEST])]
    generalize checkedMul cache.bucketSizeTl offset = r1
    cases r1 with
    | none => simpa [firstPrefetchTarget] using ih
    | some delta =>
      simp only []
      generalize checkedAdd src delta = r2
      cases r2 with
      | none => simpa [firstPrefetchTarget] using ih
      | some sourceTl =>
        simp only []
        by_cases hskip : sourceTl < 0 ∨ cache.containsKey path sourceTl = true
        · simp only [if_pos hskip]
          simpa [firstPrefetchTarget] using ih
        · simp only [if_neg hskip]
          generalize decode path sourceTl = r3
          cases r3 with
          | none => simpa [firstPrefetchTarget] using ih
          | some frame =>
            simp only []
            rw [prefetchLoop_maxed _ _ _ _ _ _ (by
              simp [PREFETCH_MAX_DECODES_PER_REQUEST])]
            rfl

/-- C6 (amended): on a preview cache hit, `set_playhead` prefetches only
when the scrub direction is unknown.  With a known direction (forward or
backward) it issues no prefetch decode at all — the directional 1..18
offset table of `prefetch_offsets` is unreachable from `set_playhead`.
With an unknown direction it walks the alternating `±1, …, ±120` offsets
and decodes exactly the first target that is in range, non-negative,
uncached and decodable (none when every offset fails); at most one decode
ever succeeds per request. -/
theorem prefetch_claims (decode : DecodeOracle) (s : EngineState) (tTl : Int)
    (project : Project) (request : PreviewRequest) (frame : PreviewFrame)
    (cache' : PreviewFrameCache) (hp : s.project = some project)
    (hreq : project.previewRequestAt (normalizePlayhead tTl project.durationTl) =
      .ok request)
    (hdec : decodePreviewFrameCached decode s.previewCache request.path
      request.sourceTl = .ok (frame, true, cache', [])) :
    (scrubDirection s.lastPreview request ≠ .unknown →
      setPlayhead decode s tTl = .ok
        ([.playheadChanged (normalizePlayhead tTl project.durationTl),
          .previewFrameReady (normalizePlayhead tTl project.durationTl) frame],
          { s with
            playheadTl := normalizePlayhead tTl project.durationTl
            previewCache := cache'
            lastPreview := some ⟨request.path, request.sourceTl⟩ },
          [])) ∧
    (scrubDirection s.lastPreview request = .unknown →
      setPlayhead decode s tTl = .ok
        ([.playheadChanged (normalizePlayhead tTl project.durationTl),
          .previewFrameReady (normalizePlayhead tTl project.durationTl) frame],
          { s with
            playheadTl := normalizePlayhead tTl project.durationTl
            previewCache :=
              (prefetchNeighbors decode cache' request .unknown).1
            lastPreview := some ⟨request.path, request.sourceTl⟩ },
          (firstPrefetchTarget decode cache' request.path request.sourceTl
            (prefetchOffsets .unknown)).toList)) ∧
    (∀ (c : PreviewFrameCache) (offsets : List Int) (path : String)
        (src : Int),
      ((prefetchLoop decode path src c 0 offsets).2).length ≤ 1) := by
  refine ⟨?_, ?_, ?_⟩
  · intro hdir
    unfold setPlayhead
    rw [hp]
    simp only [hreq, hdec]
    rw [if_neg (by
      intro hc
      exact hdir hc.2)]
    rfl
  · intro hdir
    unfold setPlayhead
    rw [hp]
    simp only [hreq, hdec]
    rw [if_pos ⟨by trivial, hdir⟩]
    unfold prefetchNeighbors
    rw [prefetchLoop_calls_eq, hdir]
    rfl
  · intro c offsets path src
    rw [prefetchLoop_calls_eq]
    cases firstPrefetchTarget decode c path src offsets <;> simp

/-- C6 counterexample: a cache hit with a known (forward) scrub direction,
an uncached forward neighbor bucket and an always-succeeding decoder — yet
`set_playhead` issues zero decode calls, refuting the claim that a known
direction triggers up to one directional prefetch decode over offsets
1..18. -/
theorem directional_prefetch_counterexample :
    scrubDirection forwardHitState.lastPreview
      ⟨"demo.mp4", 1500000⟩ = ScrubDirection.forward ∧
    forwardHitState.previewCache.containsKey "demo.mp4" 1500000 = true ∧
    forwardHitState.previewCache.containsKey "demo.mp4" 1533333 = false ∧
    setPlayhead alwaysDecode forwardHitState 500000 = .ok
      ([Event.playheadChanged 500000,
        Event.previewFrameReady 500000 (demoFrame 1)],
        { forwardHitState with
          playheadTl := 500000
          previewCache :=
            (forwardHitState.previewCache.get "demo.mp4" 1500000).2
          lastPreview := some ⟨"demo.mp4", 1500000⟩ },
        []) :=
  ⟨by decide, by decide, by decide, by decide⟩

/-- C6 witness: the prefetch theorem applied to `idleHitState` (cache hit,
unknown direction) with the always-succeeding decoder. -/
theorem prefetch_claims_witness :
    (scrubDirection idleHitState.lastPreview (⟨"demo.mp4", 1500000⟩ : PreviewRequest) ≠ .unknown →
      setPlayhead alwaysDecode idleHitState 500000 = .ok
        ([.playheadChanged (normalizePlayhead 500000 demoProject.durationTl),
          .previewFrameReady (normalizePlayhead 500000 demoProject.durationTl) (demoFrame 1)],
          { idleHitState with
            playheadTl := normalizePlayhead 500000 demoProject.durationTl
            previewCache := (idleHitState.previewCache.get "demo.mp4" 1500000).2
            lastPreview := some ⟨(⟨"demo.mp4", 1500000⟩ : PreviewRequest).path, (⟨"demo.mp4", 1500000⟩ : PreviewRequest).sourceTl⟩ },
          [])) ∧
    (scrubDirection idleHitState.lastPreview (⟨"demo.mp4", 1500000⟩ : PreviewRequest) = .unknown →
      setPlayhead alwaysDecode idleHitState 500000 = .ok
        ([.playheadChanged (normalizePlayhead 500000 demoProject.durationTl),
          .previewFrameReady (normalizePlayhead 500000 demoProject.durationTl) (demoFrame 1)],
          { idleHitState with
            playheadTl := normalizePlayhead 500000 demoProject.durationTl
            previewCache :=
              (prefetchNeighbors alwaysDecode (idleHitState.previewCache.get "demo.mp4" 1500000).2 (⟨"demo.mp4", 1500000⟩ : PreviewRequest) .unknown).1
            lastPreview := some ⟨(⟨"demo.mp4", 1500000⟩ : PreviewRequest).path, (⟨"demo.mp4", 1500000⟩ : PreviewRequest).sourceTl⟩ },
          (firstPrefetchTarget alwaysDecode (idleHitState.previewCache.get "demo.mp4" 1500000).2 (⟨"demo.mp4", 1500000⟩ : PreviewRequest).path (⟨"demo.mp4", 1500000⟩ : PreviewRequest).sourceTl
            (prefetchOffsets .unknown)).toList)) ∧
    (∀ (c : PreviewFrameCache) (offsets : List Int) (path : String)
        (src : Int),
      ((prefetchLoop alwaysDecode path src c 0 offsets).2).length ≤ 1) :=
  prefetch_claims alwaysDecode idleHitState 500000 demoProject
    (⟨"demo.mp4", 1500000⟩ : PreviewRequest) (demoFrame 1)
    ((idleHitState.previewCache.get "demo.mp4" 1500000).2) rfl (by decide)
    (by decide)

/-! ## Claim C5: cache helper lemmas -/

theorem assocFind_some_mem (entries : List (PreviewCacheKey × PreviewFrame))
    (k : PreviewCacheKey) (f : PreviewFrame) (h : assocFind entries k = some f) :
    k ∈ entries.map Prod.fst := by
  unfold assocFind at h
  cases hf : entries.find? fun e => e.1 = k with
  | none => rw [hf] at h; cases h
  | some e =>
    have hp := List.find?_some hf
    have hmem := List.mem_of_find?_eq_some hf
    simp only [decide_eq_true_iff] at hp
    exact List.mem_map.mpr ⟨e, hmem, hp⟩

theorem assocFind_eq_none (entries : List (PreviewCacheKey × PreviewFrame))
    (k : PreviewCacheKey) (h : k ∉ entries.map Prod.fst) :
    assocFind entries k = none := by
  unfold assocFind
  rw [List.find?_eq_none.mpr]
  · rfl
  · intro e he
    simp only [decide_eq_true_iff]
    intro hek
    exact h (List.mem_map.mpr ⟨e, he, hek⟩)

theorem assocInsert_of_not_mem (entries : List (PreviewCacheKey × PreviewFrame))
    (k : PreviewCacheKey) (f : PreviewFrame) (h : k ∉ entries.map Prod.fst) :
    assocInsert entries k f = entries ++ [(k, f)] := by
  unfold assocInsert
  rw [if_neg]
  intro hc
  rw [List.any_eq_true] at hc
  obtain ⟨e, he, hek⟩ := hc
  simp only [decide_eq_true_iff] at hek
  exact h (List.mem_map.mpr ⟨e, he, hek⟩)

theorem assocInsert_keys_of_mem (entries : List (PreviewCacheKey × PreviewFrame))
    (k : PreviewCacheKey) (f : PreviewFrame) (h : k ∈ entries.map Prod.fst) :
    (assocInsert entries k f).map Prod.fst = entries.map Prod.fst := by
  unfold assocInsert
  rw [if_pos]
  · rw [List.map_map]
    apply List.map_congr_left
    intro e _
    by_cases hek : e.1 = k
    · simp [hek]
    · simp [hek]
  · rw [List.any_eq_true]
    obtain ⟨e, he, hek⟩ := List.mem_map.mp h
    exact ⟨e, he, by simp [hek]⟩

theorem assocRemove_keys (entries : List (PreviewCacheKey × PreviewFrame))
    (k : PreviewCacheKey) :
    (assocRemove entries k).map Prod.fst =
      (entries.map Prod.fst).filter fun x => ¬ x = k := by
  unfold assocRemove
  induction entries with
  | nil => rfl
  | cons e rest ih =>
    by_cases hek : e.1 = k
    · rw [List.filter_cons, if_neg (by simp [hek]), List.map_cons,
        List.filter_cons, if_neg (by simp [hek])]
      exact ih
    · rw [List.filter_cons, if_pos (by simp [hek]), List.map_cons, List.map_cons,
        List.filter_cons, if_pos (by simp [hek]), ih]

theorem filter_ne_length_of_nodup (l : List PreviewCacheKey)
    (k : PreviewCacheKey) (hN : l.Nodup) (hmem : k ∈ l) :
    (l.filter fun x => ¬ x = k).length = l.length - 1 := by
  induction l with
  | nil => cases hmem
  | cons a rest ih =>
    rw [List.nodup_cons] at hN
    by_cases hak : a = k
    · subst hak
      have hfil : (rest.filter fun x => ¬ x = a) = rest := by
        apply List.filter_eq_self.mpr
        intro x hx
        simp only [decide_eq_true_iff]
        intro hxa
        exact hN.1 (hxa ▸ hx)
      rw [List.filter_cons, if_neg (by simp), hfil]
      simp
    · cases List.mem_cons.mp hmem with
      | inl h => exact absurd h.symm hak
      | inr h =>
        have hlen := ih hN.2 h
        have hpos : 0 < rest.length := List.length_pos_of_mem h
        rw [List.filter_cons, if_pos (by simp [hak])]
        rw [List.length_cons, hlen, List.length_cons]
        omega

theorem evictLoop_noop (capacity : Nat)
    (entries : List (PreviewCacheKey × PreviewFrame))
    (lru : List PreviewCacheKey) (h : entries.length ≤ capacity) :
    evictLoop capacity entries lru = (entries, lru) := by
  cases lru with
  | nil => rfl
  | cons oldest rest =>
    rw [evictLoop, if_neg (show ¬ capacity < entries.length by omega)]

theorem evictLoop_single (capacity : Nat)
    (entries : List (PreviewCacheKey × PreviewFrame))
    (kLRU : PreviewCacheKey) (rest : List PreviewCacheKey)
    (h1 : capacity < entries.length)
    (h2 : (assocRemove entries kLRU).length ≤ capacity) :
    evictLoop capacity entries (kLRU :: rest) =
      (assocRemove entries kLRU, rest) := by
  rw [evictLoop, if_pos h1, evictLoop_noop _ _ _ h2]

theorem evictLoop_inv (capacity : Nat) (lru : List PreviewCacheKey) :
    ∀ (entries : List (PreviewCacheKey × PreviewFrame)),
    (entries.map Prod.fst).Nodup → lru.Nodup →
    (∀ k ∈ entries.map Prod.fst, k ∈ lru) →
    (∀ k ∈ lru, k ∈ entries.map Prod.fst) →
    ((evictLoop capacity entries lru).1.map Prod.fst).Nodup ∧
    (evictLoop capacity entries lru).2.Nodup ∧
    (∀ k ∈ (evictLoop capacity entries lru).1.map Prod.fst,
      k ∈ (evictLoop capacity entries lru).2) ∧
    (∀ k ∈ (evictLoop capacity entries lru).2,
      k ∈ (evictLoop capacity entries lru).1.map Prod.fst) ∧
    (evictLoop capacity entries lru).1.length ≤ capacity := by
  induction lru with
  | nil =>
    intro entries hN _ h1 _
    have hempty : entries = [] := by
      cases entries with
      | nil => rfl
      | cons e rest => exact absurd (h1 e.1 (by simp)) (by simp)
    subst hempty
    simp [evictLoop]
  | cons oldest rest ih =>
    intro entries hN hLruN h1 h2
    rw [List.nodup_cons] at hLruN
    by_cases hc : capacity < entries.length
    · rw [evictLoop, if_pos hc]
      apply ih
      · rw [assocRemove_keys]
        exact hN.filter _
      · exact hLruN.2
      · intro k hk
        rw [assocRemove_keys, List.mem_filter] at hk
        obtain ⟨hk1, hk2⟩ := hk
        simp only [decide_eq_true_iff] at hk2
        cases List.mem_cons.mp (h1 k hk1) with
        | inl h => exact absurd h hk2
        | inr h => exact h
      · intro k hk
        rw [assocRemove_keys, List.mem_filter]
        refine ⟨h2 k (List.mem_cons_of_mem _ hk), ?_⟩
        simp only [decide_eq_true_iff]
        intro hko
        exact hLruN.1 (hko ▸ hk)
    · rw [evictLoop_noop _ _ _ (by omega)]
      exact ⟨hN, List.nodup_cons.mpr hLruN, h1, h2,
        (by omega : entries.length ≤ capacity)⟩

theorem erase_append_inv (lru keysNew : List PreviewCacheKey)
    (key : PreviewCacheKey) (hlruN : lru.Nodup) (_hkeyN : keysNew.Nodup)
    (hm1 : ∀ k ∈ keysNew, k = key ∨ k ∈ lru)
    (hm2 : ∀ k ∈ lru, k ∈ keysNew) (hkey : key ∈ keysNew) :
    (lru.erase key ++ [key]).Nodup ∧
    (∀ k ∈ keysNew, k ∈ lru.erase key ++ [key]) ∧
    (∀ k ∈ lru.erase key ++ [key], k ∈ keysNew) := by
  refine ⟨?_, ?_, ?_⟩
  · rw [List.nodup_append]
    refine ⟨hlruN.erase key, List.nodup_singleton key, ?_⟩
    intro a ha hb
    rw [List.mem_singleton] at hb
    exact ((hlruN.mem_erase_iff).mp ha).1 hb
  · intro k hk
    rw [List.mem_append, List.mem_singleton]
    cases hm1 k hk with
    | inl h => exact Or.inr h
    | inr h =>
      by_cases hke : k = key
      · exact Or.inr hke
      · exact Or.inl ((hlruN.mem_erase_iff).mpr ⟨hke, h⟩)
  · intro k hk
    rw [List.mem_append, List.mem_singleton] at hk
    cases hk with
    | inl h => exact hm2 k (List.mem_of_mem_erase h)
    | inr h => exact h ▸ hkey

theorem lru_length_eq (c : PreviewFrameCache) (hInv : CacheInv c) :
    c.lruOrder.length = c.entries.length := by
  obtain ⟨hN, hL, h1, h2⟩ := hInv
  have ha : c.lruOrder.length ≤ (c.entries.map Prod.fst).length :=
    (List.subperm_of_subset hL fun _ h => h2 _ h).length_le
  have hb : (c.entries.map Prod.fst).length ≤ c.lruOrder.length :=
    (List.subperm_of_subset hN fun _ h => h1 _ h).length_le
  rw [List.length_map] at ha hb
  omega

theorem assocRemove_length_of_mem
    (entries : List (PreviewCacheKey × PreviewFrame)) (k : PreviewCacheKey)
    (hN : (entries.map Prod.fst).Nodup) (hk : k ∈ entries.map Prod.fst) :
    (assocRemove entries k).length = entries.length - 1 := by
  have h1 : (assocRemove entries k).length
      = ((entries.map Prod.fst).filter fun x => ¬ x = k).length := by
    rw [← assocRemove_keys, List.length_map]
  rw [h1, filter_ne_length_of_nodup _ _ hN hk, List.length_map]

theorem evictIfNeeded_eq (c : PreviewFrameCache) :
    c.evictIfNeeded =
      { c with
        entries := (evictLoop c.capacity c.entries c.lruOrder).1,
        lruOrder := (evictLoop c.capacity c.entries c.lruOrder).2 } := by
  unfold PreviewFrameCache.evictIfNeeded
  cases hev : evictLoop c.capacity c.entries c.lruOrder with
  | mk e l => rfl

theorem insert_eq (c : PreviewFrameCache) (path : String) (tl : Int)
    (f : PreviewFrame) :
    c.insert path tl f =
      { c with
        entries := (evictLoop c.capacity
            (assocInsert c.entries (c.makeKey path tl) f)
            (c.lruOrder.erase (c.makeKey path tl) ++ [c.makeKey path tl])).1,
        lruOrder := (evictLoop c.capacity
            (assocInsert c.entries (c.makeKey path tl) f)
            (c.lruOrder.erase (c.makeKey path tl) ++ [c.makeKey path tl])).2 } := by
  simp only [PreviewFrameCache.insert, PreviewFrameCache.touch]
  rw [evictIfNeeded_eq]

theorem get_hit_eq (c : PreviewFrameCache) (path : String) (tl : Int)
    (frame : PreviewFrame)
    (hHit : assocFind c.entries (c.makeKey path tl) = some frame) :
    c.get path tl = (some frame, c.touch (c.makeKey path tl)) := by
  simp only [PreviewFrameCache.get]
  rw [hHit]

theorem get_miss_eq (c : PreviewFrameCache) (path : String) (tl : Int)
    (hMiss : assocFind c.entries (c.makeKey path tl) = none) :
    c.get path tl = (none, c) := by
  simp only [PreviewFrameCache.get]
  rw [hMiss]

theorem touch_inv (c : PreviewFrameCache) (key : PreviewCacheKey)
    (hInv : CacheInv c) (hkey : key ∈ c.entries.map Prod.fst) :
    CacheInv (c.touch key) := by
  obtain ⟨hN, hL, h1, h2⟩ := hInv
  obtain ⟨g1, g2, g3⟩ := erase_append_inv c.lruOrder (c.entries.map Prod.fst)
    key hL hN (fun k hk => Or.inr (h1 k hk)) h2 hkey
  exact ⟨hN, g1, g2, g3⟩

theorem insert_pre (c : PreviewFrameCache) (key : PreviewCacheKey)
    (f : PreviewFrame) (hInv : CacheInv c) :
    ((assocInsert c.entries key f).map Prod.fst).Nodup ∧
    (c.lruOrder.erase key ++ [key]).Nodup ∧
    (∀ k ∈ (assocInsert c.entries key f).map Prod.fst,
      k ∈ c.lruOrder.erase key ++ [key]) ∧
    (∀ k ∈ c.lruOrder.erase key ++ [key],
      k ∈ (assocInsert c.entries key f).map Prod.fst) := by
  obtain ⟨hN, hL, h1, h2⟩ := hInv
  by_cases hk : key ∈ c.entries.map Prod.fst
  · rw [assocInsert_keys_of_mem _ _ _ hk]
    obtain ⟨g1, g2, g3⟩ := erase_append_inv c.lruOrder (c.entries.map Prod.fst)
      key hL hN (fun k hkk => Or.inr (h1 k hkk)) h2 hk
    exact ⟨hN, g1, g2, g3⟩
  · rw [assocInsert_of_not_mem _ _ _ hk, List.map_append]
    simp only [List.map_cons, List.map_nil]
    have hN2 : (c.entries.map Prod.fst ++ [key]).Nodup := by
      rw [List.nodup_append]
      exact ⟨hN, List.nodup_singleton _,
        fun a ha hb => hk ((List.mem_singleton.mp hb) ▸ ha)⟩
    obtain ⟨g1, g2, g3⟩ := erase_append_inv c.lruOrder
      (c.entries.map Prod.fst ++ [key]) key hL hN2
      (fun k hkk => by
        rcases List.mem_append.mp hkk with h | h
        · exact Or.inr (h1 k h)
        · exact Or.inl (List.mem_singleton.mp h))
      (fun k hkk => List.mem_append_left _ (h2 k hkk))
      (List.mem_append_right _ (List.mem_singleton.mpr rfl))
    exact ⟨hN2, g1, g2, g3⟩

theorem insert_good (c : PreviewFrameCache) (path : String) (tl : Int)
    (f : PreviewFrame) (hInv : CacheInv c) :
    CacheInv (c.insert path tl f) ∧
    (c.insert path tl f).entries.length ≤ c.capacity ∧
    (c.insert path tl f).capacity = c.capacity := by
  obtain ⟨p1, p2, p3, p4⟩ := insert_pre c (c.makeKey path tl) f hInv
  obtain ⟨g1, g2, g3, g4, g5⟩ := evictLoop_inv c.capacity
    (c.lruOrder.erase (c.makeKey path tl) ++ [c.makeKey path tl])
    (assocInsert c.entries (c.makeKey path tl) f) p1 p2 p3 p4
  rw [insert_eq]
  exact ⟨⟨g1, g2, g3, g4⟩, g5, rfl⟩

theorem get_good (c : PreviewFrameCache) (path : String) (tl : Int)
    (hInv : CacheInv c) :
    CacheInv (c.get path tl).2 ∧ (c.get path tl).2.entries = c.entries ∧
    (c.get path tl).2.capacity = c.capacity := by
  cases hf : assocFind c.entries (c.makeKey path tl) with
  | none => rw [get_miss_eq c path tl hf]; exact ⟨hInv, rfl, rfl⟩
  | some frame =>
    rw [get_hit_eq c path tl frame hf]
    exact ⟨touch_inv c _ hInv (assocFind_some_mem _ _ _ hf), rfl, rfl⟩

theorem step_good (c : PreviewFrameCache) (op : CacheOp)
    (hInv : CacheInv c) (hLen : c.entries.length ≤ c.capacity) :
    CacheInv (CacheOp.step c op) ∧
    (CacheOp.step c op).entries.length ≤ (CacheOp.step c op).capacity ∧
    (CacheOp.step c op).capacity = c.capacity := by
  cases op with
  | get path tl =>
    obtain ⟨g1, g2, g3⟩ := get_good c path tl hInv
    refine ⟨g1, ?_, g3⟩
    show (c.get path tl).2.entries.length ≤ (c.get path tl).2.capacity
    rw [g2, g3]
    exact hLen
  | insert path tl f =>
    obtain ⟨g1, g2, g3⟩ := insert_good c path tl f hInv
    refine ⟨g1, ?_, g3⟩
    show (c.insert path tl f).entries.length ≤ (c.insert path tl f).capacity
    rw [g3]
    exact g2
  | containsQuery path tl => exact ⟨hInv, hLen, rfl⟩
  | clear =>
    exact ⟨⟨List.nodup_nil, List.nodup_nil,
      fun k hk => absurd hk (List.not_mem_nil k),
      fun k hk => absurd hk (List.not_mem_nil k)⟩, Nat.zero_le _, rfl⟩

theorem runCacheOps_good (ops : List CacheOp) :
    ∀ c : PreviewFrameCache, CacheInv c → c.entries.length ≤ c.capacity →
      CacheInv (runCacheOps c ops) ∧
      (runCacheOps c ops).entries.length ≤ (runCacheOps c ops).capacity ∧
      (runCacheOps c ops).capacity = c.capacity := by
  induction ops with
  | nil => intro c h1 h2; exact ⟨h1, h2, rfl⟩
  | cons op rest ih =>
    intro c h1 h2
    obtain ⟨s1, s2, s3⟩ := step_good c op h1 h2
    obtain ⟨r1, r2, r3⟩ := ih (CacheOp.step c op) s1 s2
    exact ⟨r1, r2, r3.trans s3⟩

theorem new_inv (N : Nat) (B : Int) : CacheInv (PreviewFrameCache.new N B) :=
  ⟨List.nodup_nil, List.nodup_nil,
    fun k hk => absurd hk (List.not_mem_nil k),
    fun k hk => absurd hk (List.not_mem_nil k)⟩

theorem insert_evict_eq (c : PreviewFrameCache) (path : String) (tl : Int)
    (f : PreviewFrame) (kLRU : PreviewCacheKey) (rest : List PreviewCacheKey)
    (hLru : c.lruOrder = kLRU :: rest)
    (hFresh : c.makeKey path tl ∉ c.entries.map Prod.fst)
    (hnl : c.makeKey path tl ∉ c.lruOrder)
    (h1 : c.capacity < (c.entries ++ [(c.makeKey path tl, f)]).length)
    (h2 : (assocRemove (c.entries ++ [(c.makeKey path tl, f)]) kLRU).length
      ≤ c.capacity) :
    c.insert path tl f =
      { c with
        entries := assocRemove (c.entries ++ [(c.makeKey path tl, f)]) kLRU,
        lruOrder := rest ++ [c.makeKey path tl] } := by
  rw [insert_eq, assocInsert_of_not_mem _ _ _ hFresh,
    List.erase_of_not_mem hnl, hLru, List.cons_append,
    evictLoop_single _ _ _ _ h1 h2]

/-- Claim C5: the preview frame cache is strict LRU. (A) After any sequence
of public operations on a fresh cache of capacity `N` the representation
invariant holds and the entry count never exceeds `N`. (D) `contains` never
changes cache state. (C) A `get` on a cached bucket returns its frame,
leaves the entries unchanged, and moves the key to the back (most recently
used end) of the recency order. (B) Inserting a fresh bucket into a full
cache whose LRU order is `kLRU :: rest` evicts exactly `kLRU`: the new key
set is the old one minus `kLRU` plus the new key, in order, the LRU order
drops its front, and the entry count stays at capacity. (C, protection)
After a `get` hit on a bucket of a full cache with at least two entries,
that bucket survives the eviction caused by the next fresh-bucket insert. -/
theorem cache_lru_claims (N : Nat) (B : Int) (ops : List CacheOp)
    (c : PreviewFrameCache) (path : String) (tl : Int)
    (frame fB f' : PreviewFrame) (pathB : String) (tlB : Int)
    (path' : String) (tl' : Int)
    (kLRU : PreviewCacheKey) (rest : List PreviewCacheKey)
    (hInv : CacheInv c)
    (hFull : c.entries.length = c.capacity)
    (hLru : c.lruOrder = kLRU :: rest)
    (hHit : assocFind c.entries (c.makeKey path tl) = some frame)
    (hTwo : 2 ≤ c.entries.length)
    (hFreshB : c.makeKey pathB tlB ∉ c.entries.map Prod.fst)
    (hFresh' : c.makeKey path' tl' ∉ c.entries.map Prod.fst) :
    (CacheInv (runCacheOps (PreviewFrameCache.new N B) ops) ∧
      (runCacheOps (PreviewFrameCache.new N B) ops).entries.length ≤ N) ∧
    (CacheOp.step c (.containsQuery path tl) = c) ∧
    (c.get path tl = (some frame, c.touch (c.makeKey path tl)) ∧
      (c.get path tl).2.entries = c.entries ∧
      (c.get path tl).2.lruOrder
        = c.lruOrder.erase (c.makeKey path tl) ++ [c.makeKey path tl]) ∧
    ((c.insert pathB tlB fB).entries.map Prod.fst
        = ((c.entries.map Prod.fst).filter fun x => ¬ x = kLRU)
          ++ [c.makeKey pathB tlB] ∧
      (c.insert pathB tlB fB).lruOrder = rest ++ [c.makeKey pathB tlB] ∧
      (c.insert pathB tlB fB).entries.length = c.capacity) ∧
    (c.makeKey path tl ∈
      ((c.get path tl).2.insert path' tl' f').entries.map Prod.fst) := by
  obtain ⟨hN, hL, h1, h2⟩ := id hInv
  refine ⟨?_, rfl, ?_, ?_, ?_⟩
  · obtain ⟨r1, r2, r3⟩ := runCacheOps_good ops (PreviewFrameCache.new N B)
      (new_inv N B) (Nat.zero_le _)
    refine ⟨r1, ?_⟩
    have hcap : (runCacheOps (PreviewFrameCache.new N B) ops).capacity = N := r3
    exact le_of_le_of_eq r2 hcap
  · refine ⟨get_hit_eq c path tl frame hHit, ?_, ?_⟩
    · rw [get_hit_eq c path tl frame hHit]
      rfl
    · rw [get_hit_eq c path tl frame hHit]
      rfl
  · have hknl : c.makeKey pathB tlB ∉ c.lruOrder := fun hm => hFreshB (h2 _ hm)
    have hkLRUmem : kLRU ∈ c.entries.map Prod.fst :=
      h2 kLRU (by rw [hLru]; exact List.mem_cons_self _ _)
    have hne : ¬ c.makeKey pathB tlB = kLRU := fun he => hFreshB (he ▸ hkLRUmem)
    have hlen1 : c.capacity
        < (c.entries ++ [(c.makeKey pathB tlB, fB)]).length := by
      simp only [List.length_append, List.length_cons, List.length_nil]
      omega
    have hN1 : ((c.entries ++ [(c.makeKey pathB tlB, fB)]).map Prod.fst).Nodup := by
      rw [List.map_append]
      simp only [List.map_cons, List.map_nil]
      rw [List.nodup_append]
      exact ⟨hN, List.nodup_singleton _,
        fun a ha hb => hFreshB ((List.mem_singleton.mp hb) ▸ ha)⟩
    have hkLRU1 : kLRU ∈ (c.entries ++ [(c.makeKey pathB tlB, fB)]).map Prod.fst := by
      rw [List.map_append]
      exact List.mem_append_left _ hkLRUmem
    have hlen2 : (assocRemove (c.entries ++ [(c.makeKey pathB tlB, fB)]) kLRU).length
        ≤ c.capacity := by
      rw [assocRemove_length_of_mem _ _ hN1 hkLRU1]
      simp only [List.length_append, List.length_cons, List.length_nil]
      omega
    have heqB := insert_evict_eq c pathB tlB fB kLRU rest hLru hFreshB hknl
      hlen1 hlen2
    have e1 : (c.insert pathB tlB fB).entries
        = assocRemove (c.entries ++ [(c.makeKey pathB tlB, fB)]) kLRU := by
      rw [heqB]
    have e2 : (c.insert pathB tlB fB).lruOrder
        = rest ++ [c.makeKey pathB tlB] := by
      rw [heqB]
    refine ⟨?_, e2, ?_⟩
    · rw [e1, assocRemove_keys, List.map_append]
      simp only [List.map_cons, List.map_nil]
      rw [List.filter_append]
      congr 1
      rw [List.filter_cons, if_pos (by simp [hne])]
      rfl
    · rw [e1, assocRemove_length_of_mem _ _ hN1 hkLRU1]
      simp only [List.length_append, List.length_cons, List.length_nil]
      omega
  · have hkeymem : c.makeKey path tl ∈ c.entries.map Prod.fst :=
      assocFind_some_mem _ _ _ hHit
    have hkeylru : c.makeKey path tl ∈ c.lruOrder := h1 _ hkeymem
    have hlenlru : c.lruOrder.length = c.entries.length := lru_length_eq c hInv
    have herlen : (c.lruOrder.erase (c.makeKey path tl)).length
        = c.lruOrder.length - 1 := List.length_erase_of_mem hkeylru
    have eget : (c.get path tl).2 = c.touch (c.makeKey path tl) := by
      rw [get_hit_eq c path tl frame hHit]
    rw [eget]
    cases herase : c.lruOrder.erase (c.makeKey path tl) with
    | nil =>
      exfalso
      rw [herase] at herlen
      simp only [List.length_nil] at herlen
      omega
    | cons hd tlrest =>
      have hhdmem : hd ∈ c.lruOrder.erase (c.makeKey path tl) := by
        rw [herase]
        exact List.mem_cons_self _ _
      have hhd := (hL.mem_erase_iff).mp hhdmem
      have hhdne : ¬ c.makeKey path tl = hd := fun he => hhd.1 he.symm
      have hlru1 : (c.touch (c.makeKey path tl)).lruOrder
          = hd :: (tlrest ++ [c.makeKey path tl]) := by
        show c.lruOrder.erase (c.makeKey path tl) ++ [c.makeKey path tl] = _
        rw [herase, List.cons_append]
      have hfresh1 : (c.touch (c.makeKey path tl)).makeKey path' tl'
          ∉ (c.touch (c.makeKey path tl)).entries.map Prod.fst := hFresh'
      have hfreshlru : (c.touch (c.makeKey path tl)).makeKey path' tl'
          ∉ (c.touch (c.makeKey path tl)).lruOrder := by
        show c.makeKey path' tl'
          ∉ c.lruOrder.erase (c.makeKey path tl) ++ [c.makeKey path tl]
        intro hmem
        rcases List.mem_append.mp hmem with h | h
        · exact hFresh' (h2 _ (List.mem_of_mem_erase h))
        · exact hFresh' (by rw [List.mem_singleton.mp h]; exact hkeymem)
      have hlen1 : (c.touch (c.makeKey path tl)).capacity
          < ((c.touch (c.makeKey path tl)).entries
              ++ [((c.touch (c.makeKey path tl)).makeKey path' tl', f')]).length := by
        show c.capacity
          < (c.entries ++ [(c.makeKey path' tl', f')]).length
        simp only [List.length_append, List.length_cons, List.length_nil]
        omega
      have hN1 : (((c.touch (c.makeKey path tl)).entries
          ++ [((c.touch (c.makeKey path tl)).makeKey path' tl', f')]).map
            Prod.fst).Nodup := by
        show ((c.entries ++ [(c.makeKey path' tl', f')]).map Prod.fst).Nodup
        rw [List.map_append]
        simp only [List.map_cons, List.map_nil]
        rw [List.nodup_append]
        exact ⟨hN, List.nodup_singleton _,
          fun a ha hb => hFresh' ((List.mem_singleton.mp hb) ▸ ha)⟩
      have hhdmem1 : hd ∈ ((c.touch (c.makeKey path tl)).entries
          ++ [((c.touch (c.makeKey path tl)).makeKey path' tl', f')]).map
            Prod.fst := by
        show hd ∈ (c.entries ++ [(c.makeKey path' tl', f')]).map Prod.fst
        rw [List.map_append]
        exact List.mem_append_left _ (h2 _ hhd.2)
      have hlen2 : (assocRemove ((c.touch (c.makeKey path tl)).entries
          ++ [((c.touch (c.makeKey path tl)).makeKey path' tl', f')]) hd).length
          ≤ (c.touch (c.makeKey path tl)).capacity := by
        rw [assocRemove_length_of_mem _ _ hN1 hhdmem1]
        show (c.entries ++ [(c.makeKey path' tl', f')]).length - 1 ≤ c.capacity
        simp only [List.length_append, List.length_cons, List.length_nil]
        omega
      have heqC := insert_evict_eq (c.touch (c.makeKey path tl)) path' tl' f'
        hd (tlrest ++ [c.makeKey path tl]) hlru1 hfresh1 hfreshlru hlen1 hlen2
      have e3 : ((c.touch (c.makeKey path tl)).insert path' tl' f').entries
          = assocRemove ((c.touch (c.makeKey path tl)).entries
              ++ [((c.touch (c.makeKey path tl)).makeKey path' tl', f')]) hd := by
        rw [heqC]
      rw [e3, assocRemove_keys, List.mem_filter]
      constructor
      · show c.makeKey path tl
          ∈ (c.entries ++ [(c.makeKey path' tl', f')]).map Prod.fst
        rw [List.map_append]
        exact List.mem_append_left _ hkeymem
      · simp only [decide_eq_true_iff]
        exact hhdne

theorem cache_lru_claims_witness :
    (CacheInv (runCacheOps (PreviewFrameCache.new 2 1000) lruOps) ∧
      (runCacheOps (PreviewFrameCache.new 2 1000) lruOps).entries.length ≤ 2) ∧
    (CacheOp.step lruCache (.containsQuery "a" 1500) = lruCache) ∧
    (lruCache.get "a" 1500
        = (some (demoFrame 1), lruCache.touch (lruCache.makeKey "a" 1500)) ∧
      (lruCache.get "a" 1500).2.entries = lruCache.entries ∧
      (lruCache.get "a" 1500).2.lruOrder
        = lruCache.lruOrder.erase (lruCache.makeKey "a" 1500)
          ++ [lruCache.makeKey "a" 1500]) ∧
    ((lruCache.insert "b" 0 (demoFrame 2)).entries.map Prod.fst
        = ((lruCache.entries.map Prod.fst).filter
            fun x => ¬ x = (⟨"a", 0⟩ : PreviewCacheKey))
          ++ [lruCache.makeKey "b" 0] ∧
      (lruCache.insert "b" 0 (demoFrame 2)).lruOrder
        = [(⟨"a", 1⟩ : PreviewCacheKey)] ++ [lruCache.makeKey "b" 0] ∧
      (lruCache.insert "b" 0 (demoFrame 2)).entries.length
        = lruCache.capacity) ∧
    (lruCache.makeKey "a" 1500 ∈
      ((lruCache.get "a" 1500).2.insert "b" 2500 (demoFrame 3)).entries.map
        Prod.fst) :=
  cache_lru_claims 2 1000 lruOps lruCache "a" 1500 (demoFrame 1) (demoFrame 2)
    (demoFrame 3) "b" 0 "b" 2500 ⟨"a", 0⟩ [⟨"a", 1⟩] (by decide) (by decide)
    (by decide) (by decide) (by decide) (by decide) (by decide)

/-! ## Claim C4: export plan lemmas -/

theorem findIdx?_path_get (l : List String) (path : String) (idx : Nat)
    (h : (l.findIdx? fun q => q = path) = some idx) : l[idx]? = some path := by
  obtain ⟨hlt, hp, _⟩ := List.findIdx?_eq_some_iff_getElem.mp h
  simp only [decide_eq_true_iff] at hp
  rw [List.getElem?_eq_getElem hlt, hp]

theorem findIdx?_path_mem (l : List String) (path : String) (idx : Nat)
    (h : (l.findIdx? fun q => q = path) = some idx) : path ∈ l :=
  List.getElem?_mem (findIdx?_path_get l path idx h)

theorem findIdx?_path_none (l : List String) (path : String)
    (h : (l.findIdx? fun q => q = path) = none) : path ∉ l := by
  intro hmem
  have := List.findIdx?_eq_none_iff.mp h path hmem
  simp at this

theorem getElem?_append_left_of_some (l₁ l₂ : List String) (n : Nat)
    (a : String) (h : l₁[n]? = some a) : (l₁ ++ l₂)[n]? = some a := by
  induction l₁ generalizing n with
  | nil => simp at h
  | cons x xs ihx =>
    cases n with
    | zero => simpa using h
    | succ m =>
      rw [List.cons_append, List.getElem?_cons_succ] at *
      exact ihx m h

theorem dedup_foldl_nodup (paths : List String) :
    ∀ acc : List String, acc.Nodup →
      (paths.foldl (fun a q => if q ∈ a then a else a ++ [q]) acc).Nodup := by
  induction paths with
  | nil => intro acc h; exact h
  | cons q rest ihq =>
    intro acc h
    rw [List.foldl_cons]
    by_cases hq : q ∈ acc
    · rw [if_pos hq]; exact ihq acc h
    · rw [if_neg hq]
      refine ihq _ ?_
      rw [List.nodup_append]
      exact ⟨h, List.nodup_singleton _,
        fun a ha hb => hq ((List.mem_singleton.mp hb) ▸ ha)⟩

theorem pairok_extend (p : Project) (inputs ext : List String)
    (pr : ExportPair) (h : PairOK p inputs pr) :
    PairOK p (inputs ++ ext) pr := by
  obtain ⟨a1, a2, a3, a4, a5, a6, a7, a8⟩ := h
  exact ⟨getElem?_append_left_of_some _ _ _ _ a1, a2, a3, a4, a5, a6, a7, a8⟩

theorem planAudioPass_ok :
    ∀ (pairs : List ExportPair) (segs : List ExportVideoSegment),
    planAudioPass pairs = .ok segs →
    segs.length = pairs.length ∧
    ∀ (i : Nat) (pr : ExportPair), pairs[i]? = some pr →
      ∃ srcIn srcOut audioStream,
        pr.2.2.audio = some audioStream ∧
        pr.2.1.srcInAudio = some srcIn ∧
        pr.2.1.srcOutAudio = some srcOut ∧
        srcIn ≤ srcOut ∧
        segs[i]? = some
          { pr.1 with
            srcInAudio := some srcIn,
            srcOutAudio :=
              some (if srcOut = srcIn then satAdd srcOut 1 else srcOut),
            srcAudioTimeBase := some audioStream.timeBase } := by
  intro pairs
  induction pairs with
  | nil =>
    intro segs hok
    rw [planAudioPass] at hok
    simp only [Except.ok.injEq] at hok
    subst hok
    refine ⟨rfl, ?_⟩
    intro i pr h
    simp at h
  | cons pr₀ rest ih =>
    obtain ⟨seg, ts, asset⟩ := pr₀
    intro segs hok
    cases haud : asset.audio with
    | none =>
      have hstep : planAudioPass ((seg, ts, asset) :: rest)
          = .error (.missingAudioStream asset.id) := by
        rw [planAudioPass, haud]
      rw [hstep] at hok
      cases hok
    | some audioStream =>
      cases hin : ts.srcInAudio with
      | none =>
        have hstep : planAudioPass ((seg, ts, asset) :: rest)
            = .error (.missingAudioRange ts.id) := by
          rw [planAudioPass, haud, hin]
        rw [hstep] at hok
        cases hok
      | some srcIn =>
        cases hout : ts.srcOutAudio with
        | none =>
          have hstep : planAudioPass ((seg, ts, asset) :: rest)
              = .error (.missingAudioRange ts.id) := by
            rw [planAudioPass, haud, hin, hout]
          rw [hstep] at hok
          cases hok
        | some srcOut =>
          by_cases hlt : srcOut < srcIn
          · have hstep : planAudioPass ((seg, ts, asset) :: rest)
                = .error (.invalidAudioRange ts.id srcIn srcOut) := by
              rw [planAudioPass, haud, hin, hout]
              simp only []
              rw [if_pos hlt]
            rw [hstep] at hok
            cases hok
          · cases hrec : planAudioPass rest with
            | error e =>
              have hstep : planAudioPass ((seg, ts, asset) :: rest)
                  = .error e := by
                rw [planAudioPass, haud, hin, hout]
                simp only []
                rw [if_neg hlt, hrec]
              rw [hstep] at hok
              cases hok
            | ok segs' =>
              have hstep : planAudioPass ((seg, ts, asset) :: rest)
                  = .ok ({ seg with
                      srcInAudio := some srcIn,
                      srcOutAudio := some (if srcOut = srcIn
                        then satAdd srcOut 1 else srcOut),
                      srcAudioTimeBase := some audioStream.timeBase } :: segs') := by
                rw [planAudioPass, haud, hin, hout]
                simp only []
                rw [if_neg hlt, hrec]
              rw [hstep] at hok
              simp only [Except.ok.injEq] at hok
              subst hok
              obtain ⟨ihl, ihp⟩ := ih segs' hrec
              refine ⟨by simp [ihl], ?_⟩
              intro i pr h
              cases i with
              | zero =>
                simp only [List.getElem?_cons_zero, Option.some.injEq] at h
                subst h
                exact ⟨srcIn, srcOut, audioStream, haud, hin, hout,
                  by omega, by rw [List.getElem?_cons_zero]⟩
              | succ n =>
                rw [List.getElem?_cons_succ] at h
                obtain ⟨a, b, c, h1, h2, h3, h4, h5⟩ := ihp n pr h
                exact ⟨a, b, c, h1, h2, h3, h4,
                  by rw [List.getElem?_cons_succ]; exact h5⟩

theorem planVideoPass_ok (p : Project) :
    ∀ (segs : List Segment) (inputs : List String) (acc : List ExportPair)
      (inputs₂ : List String) (pairs₂ : List ExportPair),
    planVideoPass p inputs acc segs = .ok (inputs₂, pairs₂) →
    pairs₂.map (fun pr => pr.2.1)
      = acc.map (fun pr => pr.2.1)
        ++ segs.filter (fun s => ¬ s.srcOutVideo = s.srcInVideo) ∧
    inputs₂ = ((segs.filter fun s => ¬ s.srcOutVideo = s.srcInVideo).map
        (segmentAssetPath p)).foldl
        (fun a q => if q ∈ a then a else a ++ [q]) inputs ∧
    (∃ ext, inputs₂ = inputs ++ ext) ∧
    ((∀ pr ∈ acc, PairOK p inputs pr) → ∀ pr ∈ pairs₂, PairOK p inputs₂ pr) := by
  intro segs
  induction segs with
  | nil =>
    intro inputs acc inputs₂ pairs₂ hok
    rw [planVideoPass] at hok
    simp only [Except.ok.injEq, Prod.mk.injEq] at hok
    obtain ⟨hi, ha⟩ := hok
    subst hi
    subst ha
    refine ⟨by simp, by simp, ⟨[], by simp⟩, ?_⟩
    intro hacc pr hpr
    exact hacc pr hpr
  | cons ts rest ih =>
    intro inputs acc inputs₂ pairs₂ hok
    cases hfind : p.assets.find? fun asset => asset.id = ts.assetId with
    | none =>
      have hstep : planVideoPass p inputs acc (ts :: rest)
          = .error (.missingAsset ts.assetId) := by
        rw [planVideoPass, hfind]
      rw [hstep] at hok
      cases hok
    | some asset =>
      have hpath : segmentAssetPath p ts = asset.path := by
        rw [segmentAssetPath, hfind]
      cases hvid : asset.video with
      | none =>
        have hstep : planVideoPass p inputs acc (ts :: rest)
            = .error (.missingVideoStream asset.id) := by
          rw [planVideoPass]
          simp only [hfind, hvid]
        rw [hstep] at hok
        cases hok
      | some video =>
        cases hin : ts.srcInVideo with
        | none =>
          have hstep : planVideoPass p inputs acc (ts :: rest)
              = .error (.missingVideoRange ts.id) := by
            rw [planVideoPass]
            simp only [hfind, hvid, hin]
          rw [hstep] at hok
          cases hok
        | some srcIn =>
          cases hout : ts.srcOutVideo with
          | none =>
            have hstep : planVideoPass p inputs acc (ts :: rest)
                = .error (.missingVideoRange ts.id) := by
              rw [planVideoPass]
              simp only [hfind, hvid, hin, hout]
            rw [hstep] at hok
            cases hok
          | some srcOut =>
            by_cases hlt : srcOut < srcIn
            · have hstep : planVideoPass p inputs acc (ts :: rest)
                  = .error (.invalidVideoRange ts.id srcIn srcOut) := by
                rw [planVideoPass]
                simp only [hfind, hvid, hin, hout]
                rw [if_pos hlt]
              rw [hstep] at hok
              cases hok
            · by_cases heq : srcOut = srcIn
              · have hstep : planVideoPass p inputs acc (ts :: rest)
                    = planVideoPass p inputs acc rest := by
                  rw [planVideoPass]
                  simp only [hfind, hvid, hin, hout]
                  rw [if_neg hlt, if_pos heq]
                rw [hstep] at hok
                obtain ⟨v1, v2, v3, v4⟩ := ih inputs acc inputs₂ pairs₂ hok
                have hfilter : (ts :: rest).filter
                    (fun s => ¬ s.srcOutVideo = s.srcInVideo)
                    = rest.filter (fun s => ¬ s.srcOutVideo = s.srcInVideo) := by
                  rw [List.filter_cons, if_neg]
                  simp [hout, hin, heq]
                rw [hfilter]
                exact ⟨v1, v2, v3, v4⟩
              · have hfilter : (ts :: rest).filter
                    (fun s => ¬ s.srcOutVideo = s.srcInVideo)
                    = ts :: rest.filter (fun s => ¬ s.srcOutVideo = s.srcInVideo) := by
                  rw [List.filter_cons, if_pos]
                  simp [hout, hin, heq]
                cases hfidx : inputs.findIdx? fun path => path = asset.path with
                | some idx =>
                  have hstep : planVideoPass p inputs acc (ts :: rest)
                      = planVideoPass p inputs
                        (acc ++ [(⟨idx, srcIn, srcOut, video.timeBase,
                          none, none, none⟩, ts, asset)]) rest := by
                    rw [planVideoPass]
                    simp only [hfind, hvid, hin, hout]
                    rw [if_neg hlt, if_neg heq, hfidx]
                    rfl
                  rw [hstep] at hok
                  obtain ⟨v1, v2, v3, v4⟩ := ih inputs
                    (acc ++ [(⟨idx, srcIn, srcOut, video.timeBase,
                      none, none, none⟩, ts, asset)]) inputs₂ pairs₂ hok
                  have hmem : asset.path ∈ inputs :=
                    findIdx?_path_mem inputs asset.path idx hfidx
                  refine ⟨?_, ?_, v3, ?_⟩
                  · rw [hfilter, v1, List.map_append]
                    simp only [List.map_cons, List.map_nil]
                    rw [List.append_assoc, List.singleton_append]
                  · rw [hfilter, List.map_cons, List.foldl_cons, hpath,
                      if_pos hmem]
                    exact v2
                  · intro hacc
                    apply v4
                    intro pr hpr
                    rcases List.mem_append.mp hpr with h | h
                    · exact hacc pr h
                    · rw [List.mem_singleton] at h
                      subst h
                      exact ⟨findIdx?_path_get inputs asset.path idx hfidx,
                        hin, hout, (by omega : srcIn < srcOut), hfind,
                        rfl, rfl, rfl⟩
                | none =>
                  have hstep : planVideoPass p inputs acc (ts :: rest)
                      = planVideoPass p (inputs ++ [asset.path])
                        (acc ++ [(⟨inputs.length, srcIn, srcOut, video.timeBase,
                          none, none, none⟩, ts, asset)]) rest := by
                    rw [planVideoPass]
                    simp only [hfind, hvid, hin, hout]
                    rw [if_neg hlt, if_neg heq, hfidx]
                    rfl
                  rw [hstep] at hok
                  obtain ⟨v1, v2, v3, v4⟩ := ih (inputs ++ [asset.path])
                    (acc ++ [(⟨inputs.length, srcIn, srcOut, video.timeBase,
                      none, none, none⟩, ts, asset)]) inputs₂ pairs₂ hok
                  have hnmem : asset.path ∉ inputs :=
                    findIdx?_path_none inputs asset.path hfidx
                  refine ⟨?_, ?_, ?_, ?_⟩
                  · rw [hfilter, v1, List.map_append]
                    simp only [List.map_cons, List.map_nil]
                    rw [List.append_assoc, List.singleton_append]
                  · rw [hfilter, List.map_cons, List.foldl_cons, hpath,
                      if_neg hnmem]
                    exact v2
                  · obtain ⟨ext, hext⟩ := v3
                    exact ⟨[asset.path] ++ ext,
                      by rw [hext, List.append_assoc]⟩
                  · intro hacc
                    apply v4
                    intro pr hpr
                    rcases List.mem_append.mp hpr with h | h
                    · exact pairok_extend p inputs [asset.path] pr (hacc pr h)
                    · rw [List.mem_singleton] at h
                      subst h
                      exact ⟨List.getElem?_concat_length inputs asset.path,
                        hin, hout, (by omega : srcIn < srcOut), hfind,
                        rfl, rfl, rfl⟩

/-- Claim C4: export plan build policy. For every project whose plan build
succeeds: segments with a zero-length video range are excluded (they never
enter `includedSegments`, and the plan has exactly one segment per included
timeline segment); input paths are deduplicated in stable first-use order
and each plan segment's input index resolves to its asset's path; each plan
segment carries its timeline segment's video bounds (strictly positive
range); and when audio export is enabled (iff some included segment's asset
has an audio stream), a zero-length audio range is kept but its out bound
is advanced by one saturating audio tick (exactly `src_in_audio + 1` while
in the i64 range), while a positive audio range is kept unchanged. -/
theorem export_plan_claims (p : Project) (outputPath : String)
    (plan : ExportVideoPlan)
    (hok : buildVideoExportPlan p outputPath = .ok plan) :
    (∀ s ∈ p.timeline.segments, s.srcOutVideo = s.srcInVideo →
      s ∉ includedSegments p) ∧
    plan.segments.length = (includedSegments p).length ∧
    plan.inputs = dedupFirstUse ((includedSegments p).map (segmentAssetPath p)) ∧
    plan.inputs.Nodup ∧
    (∀ (i : Nat) (ts : Segment) (seg : ExportVideoSegment),
      (includedSegments p)[i]? = some ts → plan.segments[i]? = some seg →
      plan.inputs[seg.inputIndex]? = some (segmentAssetPath p ts) ∧
      ts.srcInVideo = some seg.srcInVideo ∧
      ts.srcOutVideo = some seg.srcOutVideo ∧
      seg.srcInVideo < seg.srcOutVideo) ∧
    (plan.audio.isSome = true →
      ∀ (i : Nat) (ts : Segment) (seg : ExportVideoSegment),
        (includedSegments p)[i]? = some ts → plan.segments[i]? = some seg →
        ∃ srcIn srcOut,
          ts.srcInAudio = some srcIn ∧ ts.srcOutAudio = some srcOut ∧
          srcIn ≤ srcOut ∧
          seg.srcInAudio = some srcIn ∧
          (srcOut = srcIn → seg.srcOutAudio = some (satAdd srcIn 1)) ∧
          (srcOut = srcIn → i64Min ≤ srcIn → srcIn < i64Max →
            seg.srcOutAudio = some (srcIn + 1)) ∧
          (¬ srcOut = srcIn → seg.srcOutAudio = some srcOut)) ∧
    (plan.audio.isSome = true ↔ ∃ ts ∈ includedSegments p,
      ∃ asset, p.assets.find? (fun a => a.id = ts.assetId) = some asset ∧
        asset.audio.isSome = true) := by
  rw [buildVideoExportPlan] at hok
  cases hvp : planVideoPass p [] [] p.timeline.segments with
  | error e => rw [hvp] at hok; cases hok
  | ok res =>
    obtain ⟨inputs, pairs⟩ := res
    rw [hvp] at hok
    simp only [] at hok
    obtain ⟨v1, v2, v3, v4⟩ := planVideoPass_ok p p.timeline.segments [] []
      inputs pairs hvp
    have hincl : pairs.map (fun pr => pr.2.1) = includedSegments p := by
      rw [v1]
      simp only [List.map_nil, List.nil_append]
      rfl
    have hinputs_eq : inputs
        = dedupFirstUse ((includedSegments p).map (segmentAssetPath p)) := by
      rw [v2, dedupFirstUse]
      rfl
    have hnodup : inputs.Nodup := by
      rw [hinputs_eq, dedupFirstUse]
      exact dedup_foldl_nodup _ _ List.nodup_nil
    have hpair_ok : ∀ pr ∈ pairs, PairOK p inputs pr :=
      v4 fun pr hpr => absurd hpr (List.not_mem_nil pr)
    have hzero : ∀ s ∈ p.timeline.segments, s.srcOutVideo = s.srcInVideo →
        s ∉ includedSegments p := by
      intro s _ hzs hmem
      rw [includedSegments, List.mem_filter] at hmem
      simp [hzs] at hmem
    by_cases hAud : pairs.any (fun pr => pr.2.2.audio.isSome) = true
    · rw [if_pos hAud] at hok
      cases hfs : pairs.findSome? fun pr => pr.2.2.audio with
      | none =>
        exfalso
        obtain ⟨pr, hpr, hprop⟩ := List.any_eq_true.mp hAud
        obtain ⟨a, ha⟩ := Option.isSome_iff_exists.mp hprop
        have := List.findSome?_eq_none_iff.mp hfs pr hpr
        rw [ha] at this
        cases this
      | some firstAudio =>
        rw [hfs] at hok
        simp only [] at hok
        cases hap : planAudioPass pairs with
        | error e => rw [hap] at hok; simp only [] at hok; cases hok
        | ok segs =>
          rw [hap] at hok
          simp only [Except.ok.injEq] at hok
          subst hok
          obtain ⟨alen, arel⟩ := planAudioPass_ok pairs segs hap
          refine ⟨hzero, ?_, hinputs_eq, hnodup, ?_, ?_, ?_⟩
          · rw [← hincl, List.length_map]
            exact alen
          · intro i ts seg hts hseg
            have h1 : (pairs.map (fun pr => pr.2.1))[i]? = some ts := by
              rw [hincl]
              exact hts
            rw [List.getElem?_map] at h1
            cases hpi : pairs[i]? with
            | none => rw [hpi] at h1; cases h1
            | some pr =>
              rw [hpi] at h1
              simp only [Option.map_some', Option.some.injEq] at h1
              obtain ⟨srcIn, srcOut, audioStream, ha1, ha2, ha3, ha4, ha5⟩ :=
                arel i pr hpi
              rw [hseg] at ha5
              simp only [Option.some.injEq] at ha5
              subst ha5
              obtain ⟨p1, p2, p3, p4, p5, p6, p7, p8⟩ :=
                hpair_ok pr (List.getElem?_mem hpi)
              have hpathts : segmentAssetPath p ts = pr.2.2.path := by
                rw [← h1, segmentAssetPath, p5]
              rw [hpathts]
              exact ⟨p1, by rw [← h1]; exact p2, by rw [← h1]; exact p3, p4⟩
          · intro _ i ts seg hts hseg
            have h1 : (pairs.map (fun pr => pr.2.1))[i]? = some ts := by
              rw [hincl]
              exact hts
            rw [List.getElem?_map] at h1
            cases hpi : pairs[i]? with
            | none => rw [hpi] at h1; cases h1
            | some pr =>
              rw [hpi] at h1
              simp only [Option.map_some', Option.some.injEq] at h1
              obtain ⟨srcIn, srcOut, audioStream, ha1, ha2, ha3, ha4, ha5⟩ :=
                arel i pr hpi
              rw [hseg] at ha5
              simp only [Option.some.injEq] at ha5
              subst ha5
              refine ⟨srcIn, srcOut, by rw [← h1]; exact ha2,
                by rw [← h1]; exact ha3, ha4, rfl, ?_, ?_, ?_⟩
              · intro hcase
                show some (if srcOut = srcIn then satAdd srcOut 1 else srcOut)
                  = some (satAdd srcIn 1)
                rw [if_pos hcase, hcase]
              · intro hcase hlo hhi
                show some (if srcOut = srcIn then satAdd srcOut 1 else srcOut)
                  = some (srcIn + 1)
                rw [if_pos hcase, hcase, satAdd_eq srcIn 1 (by omega) (by omega)]
              · intro hcase
                show some (if srcOut = srcIn then satAdd srcOut 1 else srcOut)
                  = some srcOut
                rw [if_neg hcase]
          · constructor
            · intro _
              obtain ⟨pr, hpr, hprop⟩ := List.any_eq_true.mp hAud
              obtain ⟨_, _, _, _, p5, _, _, _⟩ := hpair_ok pr hpr
              exact ⟨pr.2.1, by rw [← hincl]; exact List.mem_map.mpr ⟨pr, hpr, rfl⟩,
                pr.2.2, p5, hprop⟩
            · intro _
              rfl
    · rw [if_neg hAud] at hok
      simp only [Except.ok.injEq] at hok
      subst hok
      refine ⟨hzero, ?_, hinputs_eq, hnodup, ?_, ?_, ?_⟩
      · rw [← hincl, List.length_map, List.length_map]
      · intro i ts seg hts hseg
        have h1 : (pairs.map (fun pr => pr.2.1))[i]? = some ts := by
          rw [hincl]
          exact hts
        rw [List.getElem?_map] at h1
        have h2 : (pairs.map (fun pr => pr.1))[i]? = some seg := hseg
        rw [List.getElem?_map] at h2
        cases hpi : pairs[i]? with
        | none => rw [hpi] at h1; cases h1
        | some pr =>
          rw [hpi] at h1
          rw [hpi] at h2
          simp only [Option.map_some', Option.some.injEq] at h1 h2
          subst h2
          obtain ⟨p1, p2, p3, p4, p5, p6, p7, p8⟩ :=
            hpair_ok pr (List.getElem?_mem hpi)
          have hpathts : segmentAssetPath p ts = pr.2.2.path := by
            rw [← h1, segmentAssetPath, p5]
          rw [hpathts]
          exact ⟨p1, by rw [← h1]; exact p2, by rw [← h1]; exact p3, p4⟩
      · intro hsome
        simp at hsome
      · constructor
        · intro hsome
          simp at hsome
        · intro ⟨ts, hmem, asset, hfind2, hsome⟩
          exfalso
          apply hAud
          rw [List.any_eq_true]
          rw [← hincl] at hmem
          obtain ⟨pr, hpr, heq2⟩ := List.mem_map.mp hmem
          obtain ⟨_, _, _, _, p5, _, _, _⟩ := hpair_ok pr hpr
          rw [← heq2] at hfind2
          rw [p5] at hfind2
          simp only [Option.some.injEq] at hfind2
          subst hfind2
          exact ⟨pr, hpr, hsome⟩

theorem export_plan_claims_witness :
    (∀ s ∈ exportProject.timeline.segments, s.srcOutVideo = s.srcInVideo →
      s ∉ includedSegments exportProject) ∧
    exportPlanExpected.segments.length
      = (includedSegments exportProject).length ∧
    exportPlanExpected.inputs
      = dedupFirstUse ((includedSegments exportProject).map
          (segmentAssetPath exportProject)) ∧
    exportPlanExpected.inputs.Nodup ∧
    (∀ (i : Nat) (ts : Segment) (seg : ExportVideoSegment),
      (includedSegments exportProject)[i]? = some ts →
      exportPlanExpected.segments[i]? = some seg →
      exportPlanExpected.inputs[seg.inputIndex]?
        = some (segmentAssetPath exportProject ts) ∧
      ts.srcInVideo = some seg.srcInVideo ∧
      ts.srcOutVideo = some seg.srcOutVideo ∧
      seg.srcInVideo < seg.srcOutVideo) ∧
    (exportPlanExpected.audio.isSome = true →
      ∀ (i : Nat) (ts : Segment) (seg : ExportVideoSegment),
        (includedSegments exportProject)[i]? = some ts →
        exportPlanExpected.segments[i]? = some seg →
        ∃ srcIn srcOut,
          ts.srcInAudio = some srcIn ∧ ts.srcOutAudio = some srcOut ∧
          srcIn ≤ srcOut ∧
          seg.srcInAudio = some srcIn ∧
          (srcOut = srcIn → seg.srcOutAudio = some (satAdd srcIn 1)) ∧
          (srcOut = srcIn → i64Min ≤ srcIn → srcIn < i64Max →
            seg.srcOutAudio = some (srcIn + 1)) ∧
          (¬ srcOut = srcIn → seg.srcOutAudio = some srcOut)) ∧
    (exportPlanExpected.audio.isSome = true ↔
      ∃ ts ∈ includedSegments exportProject,
        ∃ asset, exportProject.assets.find? (fun a => a.id = ts.assetId)
            = some asset ∧
          asset.audio.isSome = true) :=
  export_plan_claims exportProject "out.mp4" exportPlanExpected (by decide)

end Cutit
